import Mathlib

/-!
Verification of the prefix data model and provider-normalization layer of the
big_blocker repository (src/src/lib.rs), against its natural-language
specification.

The embedding models, as executable Lean functions over `List Char`:
  * the textual IPv4/IPv6 address parsers of the Rust standard library
    (`core::net::parser`: `read_number`, `read_separator`, `read_ipv4_addr`,
    `read_ipv6_addr`, and the end-of-input check of `FromStr`), which the
    source calls through `Ipv4Addr::from_str` / `Ipv6Addr::from_str`;
  * `u8::from_str` (`from_str_radix` for an unsigned 8-bit type);
  * the `Display` implementations of `Ipv4Addr` and `Ipv6Addr` (the latter
    per RFC 5952: the IPv4-mapped special case, then compression of the
    longest run of at least two zero segments, else full 8-segment form);
  * the source's `V4Prefix` / `V6Prefix` / `IpPrefix` types with their
    `FromStr` and `Display` implementations, the `AmazonIp` / `GoogleIp`
    raw entries with `try_to_prefix`, and the `AWSRange` / `GoogleRange`
    documents with the `Range` trait methods `prefix_count` and `prefixes`
    (the spec's `entry_count` / `into_prefixes`).

Machine integers are modelled as `Nat` with the overflow checks of the
source made explicit (`checked_mul` / `checked_add` against the type's
maximum value).  Strings are modelled as `List Char`.  Fallible code returns
`Option` or `Except BlockError`.
-/

/-! ### Character / digit primitives -/

/-- The radix-independent digit value of a character: `0`-`9`, then letters
(both cases) with value 10 and up. -/
def charDigitVal (c : Char) : Option Nat :=
  if ('0' ≤ c ∧ c ≤ '9') then some (c.toNat - 48)
  else if ('a' ≤ c ∧ c ≤ 'z') then some (c.toNat - 87)
  else if ('A' ≤ c ∧ c ≤ 'Z') then some (c.toNat - 55)
  else none

/-- `char::to_digit(radix)`: the digit value, accepted only below the
radix. -/
def toDigit (radix : Nat) (c : Char) : Option Nat :=
  match charDigitVal c with
  | some d => if d < radix then some d else none
  | none => none

/-- The `digit_count > max_digits` test of `Parser::read_number`. -/
def overMaxDigits : Option Nat → Nat → Bool
  | some m, k => decide (m < k)
  | none, _ => false

/-- The digit-accumulation loop of `Parser::read_number`: reads digits
greedily, failing (atomically) on overflow past `maxVal` (the `checked_mul`
and `checked_add` of the unsigned target type) or on exceeding `maxDigits`.
Returns the value, the number of digits read, and the rest of the input. -/
def readNumLoop (radix maxVal : Nat) (maxDigits : Option Nat) :
    Nat → Nat → List Char → Option (Nat × Nat × List Char)
  | acc, cnt, [] => some (acc, cnt, [])
  | acc, cnt, c :: cs =>
    match toDigit radix c with
    | none => some (acc, cnt, c :: cs)
    | some d =>
      if maxVal < acc * radix then none
      else if maxVal < acc * radix + d then none
      else if overMaxDigits maxDigits (cnt + 1) then none
      else readNumLoop radix maxVal maxDigits (acc * radix + d) (cnt + 1) cs

/-- The `peek_char() == Some('0')` test of `Parser::read_number`. -/
def hasLeadingZeroChar : List Char → Bool
  | c :: _ => decide (c = '0')
  | [] => false

/-- `Parser::read_number(radix, max_digits, allow_zero_prefix)` for an
unsigned target with maximum `maxVal`: at least one digit, and if leading
zeros are disallowed, a leading `0` is only legal as the single digit. -/
def readNumber (radix maxVal : Nat) (maxDigits : Option Nat)
    (allowLeadingZeros : Bool) (input : List Char) : Option (Nat × List Char) :=
  match readNumLoop radix maxVal maxDigits 0 0 input with
  | none => none
  | some (v, cnt, rest) =>
    if cnt = 0 then none
    else if allowLeadingZeros = false ∧ hasLeadingZeroChar input = true ∧ 1 < cnt then none
    else some (v, rest)

/-- `Parser::read_separator(sep, index, inner)`: for a non-zero index the
separator character must come first; failure consumes nothing. -/
def readSeparator {α : Type} (sep : Char) (i : Nat)
    (inner : List Char → Option (α × List Char)) (input : List Char) :
    Option (α × List Char) :=
  if i = 0 then inner input
  else
    match input with
    | c :: cs => if c = sep then inner cs else none
    | [] => none

/-! ### The Rust std IPv4 / IPv6 textual parsers -/

/-- One dotted-quad octet: `read_number(10, Some(3), false)` into a `u8`. -/
def readIpv4Octet (input : List Char) : Option (Nat × List Char) :=
  readNumber 10 255 (some 3) false input

/-- `Parser::read_ipv4_addr`: four octets separated by `.`. -/
def readIpv4 (input : List Char) : Option (List Nat × List Char) := do
  let (a, r1) ← readSeparator '.' 0 readIpv4Octet input
  let (b, r2) ← readSeparator '.' 1 readIpv4Octet r1
  let (c, r3) ← readSeparator '.' 2 readIpv4Octet r2
  let (d, r4) ← readSeparator '.' 3 readIpv4Octet r3
  some ([a, b, c, d], r4)

/-- One 16-bit IPv6 group: `read_number(16, Some(4), true)` into a `u16`. -/
def readHexGroup (input : List Char) : Option (Nat × List Char) :=
  readNumber 16 65535 (some 4) true input

/-- `u16::from_be_bytes` applied to the four octets of an embedded trailing
IPv4 address: two 16-bit groups. -/
def v4ToGroups : List Nat → List Nat
  | [a, b, c, d] => [a * 256 + b, c * 256 + d]
  | _ => []

/-- The `read_groups` helper of `Parser::read_ipv6_addr`, with the slice of
remaining group slots counted down by `rem` (the source's `limit - i`) and
`i` the running index used for the `:` separators.  While at least two slots
remain, a trailing embedded IPv4 address is tried first.  Returns the groups
read, whether an embedded IPv4 address ended them, and the rest. -/
def readGroups : Nat → Nat → List Char → List Nat × Bool × List Char
  | 0, _, input => ([], false, input)
  | rem + 1, i, input =>
    match (if 1 ≤ rem then readSeparator ':' i readIpv4 input else none) with
    | some (oct, rest) => (v4ToGroups oct, true, rest)
    | none =>
      match readSeparator ':' i readHexGroup input with
      | some (g, rest) =>
        match readGroups rem (i + 1) rest with
        | (gs, b, rest2) => (g :: gs, b, rest2)
      | none => ([], false, input)

/-- `Parser::read_ipv6_addr`: up to 8 leading groups; a full 8 succeeds
outright; otherwise an embedded IPv4 address may not precede `::`, the two
colons are consumed, the tail is read into at most `8 - (head + 1)` slots
and is right-aligned, with zero groups in between. -/
def readIpv6 (input : List Char) : Option (List Nat × List Char) :=
  match readGroups 8 0 input with
  | (head, headIpv4, rest) =>
    if head.length = 8 then some (head, rest)
    else if headIpv4 = true then none
    else
      match rest with
      | ':' :: ':' :: rest2 =>
        match readGroups (8 - (head.length + 1)) 0 rest2 with
        | (tail, _, rest3) =>
          some (head ++ List.replicate (8 - head.length - tail.length) 0 ++ tail, rest3)
      | _ => none

/-- `Ipv4Addr::from_str`: `read_ipv4_addr` and then end of input. -/
def parseIpv4Addr (s : List Char) : Option (List Nat) :=
  match readIpv4 s with
  | some (oct, []) => some oct
  | _ => none

/-- `Ipv6Addr::from_str`: `read_ipv6_addr` and then end of input. -/
def parseIpv6Addr (s : List Char) : Option (List Nat) :=
  match readIpv6 s with
  | some (segs, []) => some segs
  | _ => none

/-! ### `u8::from_str` -/

/-- The digit loop of `from_str_radix` for `u8`: every remaining character
must be a decimal digit and the value may never overflow 255 (`checked_mul`
then `checked_add`). -/
def parseU8Loop (acc : Nat) : List Char → Option Nat
  | [] => some acc
  | c :: cs =>
    match toDigit 10 c with
    | none => none
    | some d =>
      if 255 < acc * 10 then none
      else if 255 < acc * 10 + d then none
      else parseU8Loop (acc * 10 + d) cs

/-- `u8::from_str`: empty input fails, a lone sign fails, `-` fails for an
unsigned type, an optional leading `+` is allowed, then digits. -/
def parseU8 (s : List Char) : Option Nat :=
  match s with
  | [] => none
  | c :: rest =>
    if c = '+' then
      if rest = [] then none else parseU8Loop 0 rest
    else if c = '-' then none
    else parseU8Loop 0 (c :: rest)

/-! ### `str::split` -/

/-- `str::split(sep)` collected into a vector: always at least one (possibly
empty) part; a trailing separator yields a trailing empty part. -/
def splitOnChar (sep : Char) : List Char → List (List Char)
  | [] => [[]]
  | c :: cs =>
    if c = sep then [] :: splitOnChar sep cs
    else
      match splitOnChar sep cs with
      | p :: ps => (c :: p) :: ps
      | [] => [[c]]

/-! ### Decimal / hexadecimal rendering (`u8` Display, `{:x}` on `u16`) -/

/-- The character of one decimal digit. -/
def decDigitChar (k : Nat) : Char := Char.ofNat (48 + k)

/-- The character of one lowercase hexadecimal digit. -/
def hexDigitChar (k : Nat) : Char :=
  if k < 10 then Char.ofNat (48 + k) else Char.ofNat (87 + k)

/-- The decimal digits (most significant first) of a `u8` value. -/
def decDigitsU8 (n : Nat) : List Nat :=
  if n < 10 then [n]
  else if n < 100 then [n / 10, n % 10]
  else [n / 100, n / 10 % 10, n % 10]

/-- The hexadecimal digits (most significant first) of a `u16` value. -/
def hexDigitsU16 (n : Nat) : List Nat :=
  if n < 16 then [n]
  else if n < 256 then [n / 16, n % 16]
  else if n < 4096 then [n / 256, n / 16 % 16, n % 16]
  else [n / 4096, n / 256 % 16, n / 16 % 16, n % 16]

/-- `u8` `Display`: decimal, no padding (the source's fields are `u8`). -/
def decStrU8 (n : Nat) : List Char := (decDigitsU8 n).map decDigitChar

/-- `{:x}` on a `u16` group: lowercase hexadecimal, no padding. -/
def hexStrU16 (n : Nat) : List Char := (hexDigitsU16 n).map hexDigitChar

/-- `Ipv4Addr` `Display`: dotted quad. -/
def displayIpv4 (a b c d : Nat) : List Char :=
  decStrU8 a ++ '.' :: (decStrU8 b ++ '.' :: (decStrU8 c ++ '.' :: decStrU8 d))

/-! ### `Ipv6Addr` Display (RFC 5952) -/

/-- The tail of `fmt_subslice`: each further group preceded by `:`. -/
def fmtSubsliceTail : List Nat → List Char
  | [] => []
  | g :: gs => ':' :: (hexStrU16 g ++ fmtSubsliceTail gs)

/-- `fmt_subslice`: hexadecimal groups joined by `:`. -/
def fmtSubslice : List Nat → List Char
  | [] => []
  | g :: gs => hexStrU16 g ++ fmtSubsliceTail gs

/-- The `Span { start, len }` record of the zero-run search. -/
structure Span where
  start : Nat
  len : Nat
deriving DecidableEq

/-- The longest-zero-run loop of `Ipv6Addr` `Display`: `current` grows
through consecutive zero segments (recording its start when it begins) and
replaces `longest` whenever strictly longer. -/
def zeroSpanLoop : List Nat → Nat → Span → Span → Span
  | [], _, longest, _ => longest
  | seg :: rest, i, longest, current =>
    if seg = 0 then
      zeroSpanLoop rest (i + 1)
        (if longest.len < current.len + 1 then
          { start := if current.len = 0 then i else current.start, len := current.len + 1 }
         else longest)
        { start := if current.len = 0 then i else current.start, len := current.len + 1 }
    else
      zeroSpanLoop rest (i + 1) longest { start := 0, len := 0 }

/-- The zero span chosen by `Ipv6Addr` `Display`. -/
def findZeroSpan (segs : List Nat) : Span :=
  zeroSpanLoop segs 0 { start := 0, len := 0 } { start := 0, len := 0 }

/-- `Ipv6Addr::to_ipv4_mapped().is_some()`: the first six groups are
`0, 0, 0, 0, 0, 0xffff`. -/
def isV4Mapped (segs : List Nat) : Bool :=
  decide (segs.take 6 = [0, 0, 0, 0, 0, 65535])

/-- `Ipv6Addr` `Display`: an IPv4-mapped address renders as
`::ffff:a.b.c.d`; otherwise a zero run of length at least 2 is compressed
with `::`; otherwise all eight groups are written. -/
def displayIpv6 (segs : List Nat) : List Char :=
  if isV4Mapped segs = true then
    ':' :: ':' :: 'f' :: 'f' :: 'f' :: 'f' :: ':' ::
      displayIpv4 (segs.getD 6 0 / 256) (segs.getD 6 0 % 256)
        (segs.getD 7 0 / 256) (segs.getD 7 0 % 256)
  else if 1 < (findZeroSpan segs).len then
    fmtSubslice (segs.take (findZeroSpan segs).start) ++
      ':' :: ':' :: fmtSubslice (segs.drop ((findZeroSpan segs).start + (findZeroSpan segs).len))
  else
    fmtSubslice segs

/-! ### The source's error and prefix types (src/src/lib.rs) -/

/-- `BlockError`.  The `JsonError` / `IOError` / `Utf8Error` variants wrap
foreign error values raised only by the out-of-scope I/O layer and are not
modelled; `NoneError`, `AddrParse`, `MissingPrefix` and `ParseIntError` are
the variants the prefix core can produce (the spec's `MissingComponent`,
`MalformedAddress`, `MissingPrefix` and `MalformedLength`). -/
inductive BlockError where
  | CommandFailed : String → Int → BlockError
  | NoneError : BlockError
  | AddrParse : BlockError
  | MissingPrefix : BlockError
  | ParseIntError : BlockError
deriving DecidableEq

/-- `V4Prefix { ip: [u8; 4], prefix: u8 }`.  `plen` is the source's `prefix`
field (a reserved word in Lean). -/
structure V4Prefix where
  ip : List Nat
  plen : Nat
deriving DecidableEq

/-- `V6Prefix { ip: [u16; 8], prefix: u8 }`.  `plen` is the source's
`prefix` field. -/
structure V6Prefix where
  ip : List Nat
  plen : Nat
deriving DecidableEq

/-- `V4Prefix::from_str`: split on `/`, parse part 0 as an `Ipv4Addr`
(`?` turns a missing part into `NoneError` and a parse failure into
`AddrParse`), parse part 1 as a `u8`. -/
def V4Prefix.fromStr (s : List Char) : Except BlockError V4Prefix :=
  match (splitOnChar '/' s).get? 0 with
  | none => Except.error BlockError.NoneError
  | some addrStr =>
    match parseIpv4Addr addrStr with
    | none => Except.error BlockError.AddrParse
    | some oct =>
      match (splitOnChar '/' s).get? 1 with
      | none => Except.error BlockError.NoneError
      | some lenStr =>
        match parseU8 lenStr with
        | none => Except.error BlockError.ParseIntError
        | some n => Except.ok { ip := oct, plen := n }

/-- `V6Prefix::from_str`: as for `V4Prefix` with `Ipv6Addr::from_str`. -/
def V6Prefix.fromStr (s : List Char) : Except BlockError V6Prefix :=
  match (splitOnChar '/' s).get? 0 with
  | none => Except.error BlockError.NoneError
  | some addrStr =>
    match parseIpv6Addr addrStr with
    | none => Except.error BlockError.AddrParse
    | some segs =>
      match (splitOnChar '/' s).get? 1 with
      | none => Except.error BlockError.NoneError
      | some lenStr =>
        match parseU8 lenStr with
        | none => Except.error BlockError.ParseIntError
        | some n => Except.ok { ip := segs, plen := n }

/-- `impl fmt::Display for V4Prefix`: `{}.{}.{}.{}/{}` over the four octets
and the length. -/
def V4Prefix.render (v : V4Prefix) : List Char :=
  (match v.ip with
   | [a, b, c, d] => displayIpv4 a b c d
   | _ => []) ++ '/' :: decStrU8 v.plen

/-- `impl fmt::Display for V6Prefix`: `{}/{}` over `Ipv6Addr::new(segments)`
and the length. -/
def V6Prefix.render (v : V6Prefix) : List Char :=
  displayIpv6 v.ip ++ '/' :: decStrU8 v.plen

/-- `enum IpPrefix { V4(V4Prefix), V6(V6Prefix) }`, with the derived
structural equality (`PartialEq, Eq`). -/
inductive IpPrefix where
  | V4 : V4Prefix → IpPrefix
  | V6 : V6Prefix → IpPrefix
deriving DecidableEq

/-- `impl fmt::Display for IpPrefix`: delegates to the active variant. -/
def IpPrefix.render : IpPrefix → List Char
  | IpPrefix.V4 v => V4Prefix.render v
  | IpPrefix.V6 v => V6Prefix.render v

/-! ### Provider documents and normalization -/

/-- `struct AmazonIp` (provider A raw entry). -/
structure AmazonIp where
  ip_prefix : Option V4Prefix
  ipv6_prefix : Option V6Prefix
  region : String
  service : String
  network_border_group : String
deriving DecidableEq

/-- `AmazonIp::try_to_prefix`: the v4 field wins, else the v6 field, else
`MissingPrefix`. -/
def AmazonIp.tryToPrefix (e : AmazonIp) : Except BlockError IpPrefix :=
  match AmazonIp.ip_prefix e with
  | some p => Except.ok ( IpPrefix.V4 p)
  | none =>
    match AmazonIp.ipv6_prefix e with
    | some p6 => Except.ok ( IpPrefix.V6 p6)
    | none => Except.error BlockError.MissingPrefix

/-- `struct GoogleIp` (provider B raw entry). -/
structure GoogleIp where
  ipv4Prefix : Option V4Prefix
  ipv6Prefix : Option V6Prefix
  service : Option String
  scope : Option String
deriving DecidableEq

/-- `GoogleIp::try_to_prefix`: the v4 field wins, else the v6 field, else
`MissingPrefix`. -/
def GoogleIp.tryToPrefix (e : GoogleIp) : Except BlockError IpPrefix :=
  match GoogleIp.ipv4Prefix e with
  | some p => Except.ok ( IpPrefix.V4 p)
  | none =>
    match GoogleIp.ipv6Prefix e with
    | some p6 => Except.ok ( IpPrefix.V6 p6)
    | none => Except.error BlockError.MissingPrefix

/-- `struct AWSRange`. -/
structure AWSRange where
  syncToken : String
  createDate : String
  prefixes : List AmazonIp
deriving DecidableEq

/-- `struct GoogleRange`. -/
structure GoogleRange where
  syncToken : String
  creationTime : String
  prefixes : List GoogleIp
deriving DecidableEq

/-- The loop body of `<AWSRange as Range>::prefixes`: each entry is resolved
in order and the first failure aborts (`?`). -/
def normalizeAmazon : List AmazonIp → Except BlockError (List IpPrefix)
  | [] => Except.ok []
  | e :: rest =>
    match AmazonIp.tryToPrefix e with
    | Except.error err => Except.error err
    | Except.ok p =>
      match normalizeAmazon rest with
      | Except.error err => Except.error err
      | Except.ok ps => Except.ok (p :: ps)

/-- The loop body of `<GoogleRange as Range>::prefixes`. -/
def normalizeGoogle : List GoogleIp → Except BlockError (List IpPrefix)
  | [] => Except.ok []
  | e :: rest =>
    match GoogleIp.tryToPrefix e with
    | Except.error err => Except.error err
    | Except.ok p =>
      match normalizeGoogle rest with
      | Except.error err => Except.error err
      | Except.ok ps => Except.ok (p :: ps)

/-- `<AWSRange as Range>::prefix_count` (the spec's `entry_count`): the
length of the raw entry list; a pure function of the document. -/
def AWSRange.prefix_count (r : AWSRange) : Nat := r.prefixes.length

/-- `<AWSRange as Range>::prefixes` (the spec's `into_prefixes`). -/
def AWSRange.intoPrefixes (r : AWSRange) : Except BlockError (List IpPrefix) :=
  normalizeAmazon r.prefixes

/-- `<GoogleRange as Range>::prefix_count` (the spec's `entry_count`). -/
def GoogleRange.prefix_count (r : GoogleRange) : Nat := r.prefixes.length

/-- `<GoogleRange as Range>::prefixes` (the spec's `into_prefixes`). -/
def GoogleRange.intoPrefixes (r : GoogleRange) : Except BlockError (List IpPrefix) :=
  normalizeGoogle r.prefixes

/-! ### Proof-side auxiliary definitions -/

/-- The value of a digit list (most significant first) accumulated onto
`acc` in the given radix. -/
def digitsVal (radix : Nat) : Nat → List Nat → Nat
  | acc, [] => acc
  | acc, d :: ds => digitsVal radix (acc * radix + d) ds

/-- The next character (if any) is not a digit of the radix, so a greedy
digit read stops here. -/
def notDigit (radix : Nat) : List Char → Prop
  | [] => True
  | c :: _ => toDigit radix c = none

/-- A digit count within the `max_digits` budget. -/
def maxDigitsOk (maxDigits : Option Nat) (k : Nat) : Prop :=
  match maxDigits with
  | some m => k ≤ m
  | none => True

/-- The rendering of a group sequence as `read_groups` sees it from index
`i`: the first group of the whole address is bare, every later group is
preceded by a colon. -/
def groupsRender : Nat → List Nat → List Char
  | 0, gs => fmtSubslice gs
  | _ + 1, gs => fmtSubsliceTail gs

/-! ### Spec-side comparison definitions -/

/-- The spec's claimed rendering for `V6Prefix`: always the full expanded
8-segment colon form, never `::` compression, followed by `/length`.
Written from the spec's words, to be compared with the code's
`V6Prefix.render`. -/
def fullFormRender (v : V6Prefix) : List Char :=
  fmtSubslice v.ip ++ '/' :: decStrU8 v.plen

/-- Decides whether a segment list has two consecutive zero groups. -/
def hasZeroRun2 : List Nat → Bool
  | a :: b :: rest => (decide (a = 0) && decide (b = 0)) || hasZeroRun2 (b :: rest)
  | _ => false

/-- Decides whether a rendered string contains two adjacent colons. -/
def hasDoubleColon : List Char → Bool
  | a :: b :: rest => (decide (a = ':') && decide (b = ':')) || hasDoubleColon (b :: rest)
  | _ => false

/-- A span whose positions all hold zero segments, within bounds. -/
def SpanZero (segs : List Nat) (sp : Span) : Prop :=
  sp.start + sp.len ≤ segs.length ∧
  ∀ j, j < sp.len → segs.get? (sp.start + j) = some 0

/-- The spec's per-entry resolution relation (section 4.4): if the v4 field
is present the result is `V4` of it, else if the v6 field is present the
result is `V6` of it, else the entry does not resolve. -/
def resolvesTo (o4 : Option V4Prefix) (o6 : Option V6Prefix) (p : IpPrefix) : Prop :=
  match o4, o6 with
  | some q, _ => p = IpPrefix.V4 q
  | none, some q => p = IpPrefix.V6 q
  | none, none => False

deriving instance DecidableEq for Except

/-! ### Concrete values used by counterexamples and witnesses -/

def exV4a : V4Prefix := { ip := [1, 2, 3, 4], plen := 24 }

def exV6one : V6Prefix := { ip := [0, 0, 0, 0, 0, 0, 0, 1], plen := 128 }

def exV6zero : V6Prefix := { ip := [0, 0, 0, 0, 0, 0, 0, 0], plen := 0 }

/-- A value with no zero run of length two: rendered in full form. -/
def exV6full : V6Prefix := { ip := [1, 2, 3, 4, 5, 6, 7, 8], plen := 64 }

/-- A three-part input: the parts after the second are ignored. -/
def exThreeParts : List Char := ("1.2.3.4/24/5").toList

/-- No slash and no valid address. -/
def exNoSlashBad : List Char := ("abc").toList

/-- A valid address with no slash (the spec's own example). -/
def exNoSlashAddr : List Char := ("10.0.0.1").toList

/-- A well-formed two-part input. -/
def exTwoParts : List Char := ("1.2.3.4/5").toList

/-- A bare IPv4 address string. -/
def exDotAddr : List Char := ("1.2.3.4").toList

/-- A bare IPv6 address string. -/
def exColonAddr : List Char := ("::1").toList

/-- An empty address part. -/
def exSlash24 : List Char := ("/24").toList

/-- An empty address part, IPv6 flavour. -/
def exSlash64 : List Char := ("/64").toList

/-- A non-numeric length part. -/
def exLenAbc : List Char := ("10.0.0.1/abc").toList

/-- A length part overflowing the 8-bit range. -/
def exLen256 : List Char := ("10.0.0.1/256").toList

/-- An Amazon-shaped raw entry with both optional fields present. -/
def exAmazonBoth : AmazonIp :=
  { ip_prefix := some exV4a, ipv6_prefix := some exV6one,
    region := "us-east-1", service := "AMAZON", network_border_group := "us-east-1" }

/-- A Google-shaped raw entry with both optional fields present. -/
def exGoogleBoth : GoogleIp :=
  { ipv4Prefix := some exV4a, ipv6Prefix := some exV6one,
    service := some "Google Cloud", scope := none }

/-- An Amazon-shaped raw entry with neither optional field present. -/
def exAmazonNone : AmazonIp :=
  { ip_prefix := none, ipv6_prefix := none,
    region := "us-east-1", service := "AMAZON", network_border_group := "us-east-1" }

/-- A Google-shaped raw entry with neither optional field present. -/
def exGoogleNone : GoogleIp :=
  { ipv4Prefix := none, ipv6Prefix := none, service := none, scope := none }

/-- An Amazon-shaped raw entry holding only a v4 value. -/
def exAmazonV4 : AmazonIp :=
  { ip_prefix := some exV4a, ipv6_prefix := none,
    region := "us-west-2", service := "EC2", network_border_group := "us-west-2" }

/-- A Google-shaped raw entry holding only a v6 value. -/
def exGoogleV6 : GoogleIp :=
  { ipv4Prefix := none, ipv6Prefix := some exV6one,
    service := none, scope := some "global" }

/-- A two-entry Amazon document whose second entry fails to resolve. -/
def exAWSBad : AWSRange :=
  { syncToken := "1", createDate := "2020-01-01", prefixes := [exAmazonV4, exAmazonNone] }

/-- A one-entry Amazon document that resolves. -/
def exAWSGood : AWSRange :=
  { syncToken := "1", createDate := "2020-01-01", prefixes := [exAmazonV4] }

/-- A two-entry Google document whose first entry fails to resolve. -/
def exGoogleBad : GoogleRange :=
  { syncToken := "2", creationTime := "2020-01-01", prefixes := [exGoogleNone, exGoogleV6] }

/-- A one-entry Google document that resolves. -/
def exGoogleGood : GoogleRange :=
  { syncToken := "2", creationTime := "2020-01-01", prefixes := [exGoogleV6] }

/-! ### Lemmas on normalization -/

/-- A successful `AmazonIp::try_to_prefix` follows the spec's per-entry
resolution. -/
theorem tryAmazon_resolves (e : AmazonIp) (p : IpPrefix)
    (h : AmazonIp.tryToPrefix e = Except.ok p) :
    resolvesTo ( AmazonIp.ip_prefix e) ( AmazonIp.ipv6_prefix e) p := by
  unfold AmazonIp.tryToPrefix at h
  unfold resolvesTo
  cases h4 : AmazonIp.ip_prefix e with
  | some q => rw [h4] at h; cases h; rfl
  | none =>
    rw [h4] at h
    cases h6 : AmazonIp.ipv6_prefix e with
    | some q => rw [h6] at h; cases h; rfl
    | none => rw [h6] at h; cases h

/-- A successful `GoogleIp::try_to_prefix` follows the spec's per-entry
resolution. -/
theorem tryGoogle_resolves (e : GoogleIp) (p : IpPrefix)
    (h : GoogleIp.tryToPrefix e = Except.ok p) :
    resolvesTo ( GoogleIp.ipv4Prefix e) ( GoogleIp.ipv6Prefix e) p := by
  unfold GoogleIp.tryToPrefix at h
  unfold resolvesTo
  cases h4 : GoogleIp.ipv4Prefix e with
  | some q => rw [h4] at h; cases h; rfl
  | none =>
    rw [h4] at h
    cases h6 : GoogleIp.ipv6Prefix e with
    | some q => rw [h6] at h; cases h; rfl
    | none => rw [h6] at h; cases h

/-- Normalization of an Amazon entry list succeeds pointwise, in order. -/
theorem normalizeAmazon_forall2 :
    ∀ (l : List AmazonIp) (out : List IpPrefix), normalizeAmazon l = Except.ok out →
      List.Forall₂ (fun e p => resolvesTo ( AmazonIp.ip_prefix e) ( AmazonIp.ipv6_prefix e) p) l out := by
  intro l
  induction l with
  | nil => intro out h; cases h; constructor
  | cons e rest ih =>
    intro out h
    unfold normalizeAmazon at h
    cases he : AmazonIp.tryToPrefix e with
    | error err => rw [he] at h; cases h
    | ok p =>
      rw [he] at h
      cases hr : normalizeAmazon rest with
      | error err => rw [hr] at h; cases h
      | ok ps =>
        rw [hr] at h
        cases h
        exact List.Forall₂.cons (tryAmazon_resolves e p he) (ih ps hr)

/-- Normalization of a Google entry list succeeds pointwise, in order. -/
theorem normalizeGoogle_forall2 :
    ∀ (l : List GoogleIp) (out : List IpPrefix), normalizeGoogle l = Except.ok out →
      List.Forall₂ (fun e p => resolvesTo ( GoogleIp.ipv4Prefix e) ( GoogleIp.ipv6Prefix e) p) l out := by
  intro l
  induction l with
  | nil => intro out h; cases h; constructor
  | cons e rest ih =>
    intro out h
    unfold normalizeGoogle at h
    cases he : GoogleIp.tryToPrefix e with
    | error err => rw [he] at h; cases h
    | ok p =>
      rw [he] at h
      cases hr : normalizeGoogle rest with
      | error err => rw [hr] at h; cases h
      | ok ps =>
        rw [hr] at h
        cases h
        exact List.Forall₂.cons (tryGoogle_resolves e p he) (ih ps hr)

/-- Normalization of Amazon entries succeeds when every entry resolves. -/
theorem normalizeAmazon_ok :
    ∀ l : List AmazonIp,
      (∀ e ∈ l, ¬ ( AmazonIp.ip_prefix e = none ∧ AmazonIp.ipv6_prefix e = none)) →
      ∃ out, normalizeAmazon l = Except.ok out := by
  intro l
  induction l with
  | nil => intro _; exact ⟨[], rfl⟩
  | cons e rest ih =>
    intro h
    obtain ⟨out, hout⟩ := ih (fun x hx => h x (List.mem_cons_of_mem e hx))
    have he : ∃ p, AmazonIp.tryToPrefix e = Except.ok p := by
      unfold AmazonIp.tryToPrefix
      cases h4 : AmazonIp.ip_prefix e with
      | some q => exact ⟨ IpPrefix.V4 q, rfl⟩
      | none =>
        cases h6 : AmazonIp.ipv6_prefix e with
        | some q => exact ⟨ IpPrefix.V6 q, rfl⟩
        | none => exact absurd ⟨h4, h6⟩ (h e (List.mem_cons_self e rest))
    obtain ⟨p, hp⟩ := he
    refine ⟨p :: out, ?_⟩
    unfold normalizeAmazon
    rw [hp, hout]

/-- Normalization of Google entries succeeds when every entry resolves. -/
theorem normalizeGoogle_ok :
    ∀ l : List GoogleIp,
      (∀ e ∈ l, ¬ ( GoogleIp.ipv4Prefix e = none ∧ GoogleIp.ipv6Prefix e = none)) →
      ∃ out, normalizeGoogle l = Except.ok out := by
  intro l
  induction l with
  | nil => intro _; exact ⟨[], rfl⟩
  | cons e rest ih =>
    intro h
    obtain ⟨out, hout⟩ := ih (fun x hx => h x (List.mem_cons_of_mem e hx))
    have he : ∃ p, GoogleIp.tryToPrefix e = Except.ok p := by
      unfold GoogleIp.tryToPrefix
      cases h4 : GoogleIp.ipv4Prefix e with
      | some q => exact ⟨ IpPrefix.V4 q, rfl⟩
      | none =>
        cases h6 : GoogleIp.ipv6Prefix e with
        | some q => exact ⟨ IpPrefix.V6 q, rfl⟩
        | none => exact absurd ⟨h4, h6⟩ (h e (List.mem_cons_self e rest))
    obtain ⟨p, hp⟩ := he
    refine ⟨p :: out, ?_⟩
    unfold normalizeGoogle
    rw [hp, hout]

/-- An unresolvable Amazon entry anywhere in the list makes normalization
fail with `MissingPrefix` and return nothing else. -/
theorem normalizeAmazon_err :
    ∀ l : List AmazonIp,
      (∃ e ∈ l, AmazonIp.ip_prefix e = none ∧ AmazonIp.ipv6_prefix e = none) →
      normalizeAmazon l = Except.error BlockError.MissingPrefix := by
  intro l
  induction l with
  | nil => intro h; obtain ⟨e, he, _⟩ := h; cases he
  | cons e rest ih =>
    intro h
    obtain ⟨x, hx, hxf⟩ := h
    unfold normalizeAmazon
    rcases List.mem_cons.mp hx with hxe | hxr
    · subst hxe
      unfold AmazonIp.tryToPrefix
      rw [hxf.1, hxf.2]
    · cases he : AmazonIp.tryToPrefix e with
      | error err =>
        unfold AmazonIp.tryToPrefix at he
        cases h4 : AmazonIp.ip_prefix e with
        | some q => rw [h4] at he; cases he
        | none =>
          rw [h4] at he
          cases h6 : AmazonIp.ipv6_prefix e with
          | some q => rw [h6] at he; cases he
          | none => rw [h6] at he; cases he; rfl
      | ok p => rw [ih ⟨x, hxr, hxf⟩]

/-- An unresolvable Google entry anywhere in the list makes normalization
fail with `MissingPrefix` and return nothing else. -/
theorem normalizeGoogle_err :
    ∀ l : List GoogleIp,
      (∃ e ∈ l, GoogleIp.ipv4Prefix e = none ∧ GoogleIp.ipv6Prefix e = none) →
      normalizeGoogle l = Except.error BlockError.MissingPrefix := by
  intro l
  induction l with
  | nil => intro h; obtain ⟨e, he, _⟩ := h; cases he
  | cons e rest ih =>
    intro h
    obtain ⟨x, hx, hxf⟩ := h
    unfold normalizeGoogle
    rcases List.mem_cons.mp hx with hxe | hxr
    · subst hxe
      unfold GoogleIp.tryToPrefix
      rw [hxf.1, hxf.2]
    · cases he : GoogleIp.tryToPrefix e with
      | error err =>
        unfold GoogleIp.tryToPrefix at he
        cases h4 : GoogleIp.ipv4Prefix e with
        | some q => rw [h4] at he; cases he
        | none =>
          rw [h4] at he
          cases h6 : GoogleIp.ipv6Prefix e with
          | some q => rw [h6] at he; cases he
          | none => rw [h6] at he; cases he; rfl
      | ok p => rw [ih ⟨x, hxr, hxf⟩]

/-! ### Lemmas on the zero-span search of the IPv6 Display -/

/-- The recorded span length never shrinks through the loop. -/
theorem zeroSpanLoop_mono :
    ∀ (l : List Nat) (i : Nat) (lon cur : Span), lon.len ≤ (zeroSpanLoop l i lon cur).len := by
  intro l
  induction l with
  | nil => intro i lon cur; exact Nat.le_refl _
  | cons c rest ih =>
    intro i lon cur
    rw [zeroSpanLoop]
    by_cases hc : c = 0
    · rw [if_pos hc]
      by_cases hl : lon.len < cur.len + 1
      · rw [if_pos hl]
        refine Nat.le_trans ?_ (ih (i + 1) _ _)
        exact Nat.le_trans (Nat.le_of_lt hl) (Nat.le_refl _)
      · rw [if_neg hl]
        exact ih (i + 1) _ _
    · rw [if_neg hc]
      exact ih (i + 1) _ _

/-- A zero at the head of the remaining list, with a current run already
begun, makes the loop record a span of length at least 2. -/
theorem zeroSpanLoop_step :
    ∀ (l : List Nat) (i : Nat) (lon cur : Span), l.head? = some 0 → 1 ≤ cur.len →
      2 ≤ (zeroSpanLoop l i lon cur).len := by
  intro l i lon cur hhead hcur
  cases l with
  | nil => cases hhead
  | cons a rest =>
    have ha : a = 0 := by cases hhead; rfl
    rw [zeroSpanLoop, if_pos ha]
    refine Nat.le_trans ?_ (zeroSpanLoop_mono rest (i + 1) _ _)
    by_cases hl : lon.len < cur.len + 1
    · rw [if_pos hl]
      show 2 ≤ cur.len + 1
      omega
    · rw [if_neg hl]
      omega

/-- A run of two adjacent zero segments forces the loop to record a span of
length at least 2. -/
theorem zeroSpanLoop_run :
    ∀ (l : List Nat) (i : Nat) (lon cur : Span), hasZeroRun2 l = true →
      2 ≤ (zeroSpanLoop l i lon cur).len := by
  intro l
  induction l with
  | nil => intro i lon cur h; cases h
  | cons a t ih =>
    intro i lon cur h
    cases t with
    | nil => cases h
    | cons b rest =>
      rw [hasZeroRun2, Bool.or_eq_true, Bool.and_eq_true, decide_eq_true_iff,
        decide_eq_true_iff] at h
      by_cases hc : a = 0
      · rw [zeroSpanLoop, if_pos hc]
        rcases h with ⟨_, hb⟩ | hr
        · exact zeroSpanLoop_step (b :: rest) (i + 1) _ _ (by subst hb; rfl)
            (Nat.le_add_left 1 cur.len)
        · exact ih (i + 1) _ _ hr
      · rw [zeroSpanLoop, if_neg hc]
        rcases h with ⟨ha, _⟩ | hr
        · exact absurd ha hc
        · exact ih (i + 1) _ _ hr

/-- Loop invariant: the recorded span (when non-empty) covers only zero
segments of the list and stays in bounds. -/
theorem zeroSpanLoop_zero (segs : List Nat) :
    ∀ (rest : List Nat) (i : Nat) (lon cur : Span),
      rest = segs.drop i →
      (lon.len = 0 ∨ SpanZero segs lon) →
      (cur.len = 0 ∨ (cur.start + cur.len = i ∧ i ≤ segs.length ∧
        ∀ j, j < cur.len → segs.get? (cur.start + j) = some 0)) →
      ((zeroSpanLoop rest i lon cur).len = 0 ∨ SpanZero segs (zeroSpanLoop rest i lon cur)) := by
  intro rest
  induction rest with
  | nil =>
    intro i lon cur _ hlon _
    exact hlon
  | cons c rest ih =>
    intro i lon cur hdrop hlon hcur
    have hi : i < segs.length := by
      by_contra hge
      rw [List.drop_eq_nil_of_le (Nat.le_of_not_lt hge)] at hdrop
      cases hdrop
    have hgetc : segs.get? i = some c := by
      have h0 : (segs.drop i).get? 0 = some c := by rw [← hdrop]; rfl
      rwa [List.get?_drop, Nat.add_zero] at h0
    have hdrop2 : rest = segs.drop (i + 1) := by
      have hsplit : segs.drop (i + 1) = (segs.drop i).drop 1 := by
        rw [List.drop_drop, Nat.add_comm]
      rw [hsplit, ← hdrop]
      rfl
    rw [zeroSpanLoop]
    by_cases hc : c = 0
    · rw [if_pos hc]
      have hstart : (if cur.len = 0 then i else cur.start) + (cur.len + 1) = i + 1 ∧
          ∀ j, j < cur.len + 1 → segs.get? ((if cur.len = 0 then i else cur.start) + j) = some 0 := by
        by_cases hz : cur.len = 0
        · rw [hz, if_pos rfl]
          refine ⟨rfl, ?_⟩
          intro j hj
          have hj0 : j = 0 := by omega
          subst hj0
          rw [Nat.add_zero, hgetc, hc]
        · rw [if_neg hz]
          rcases hcur with hz2 | ⟨hsum, _, hzeros⟩
          · exact absurd hz2 hz
          · refine ⟨by omega, ?_⟩
            intro j hj
            rcases Nat.lt_or_ge j cur.len with hlt | hge
            · exact hzeros j hlt
            · have hj2 : j = cur.len := by omega
              subst hj2
              rw [hsum, hgetc, hc]
      have hlen2 : i + 1 ≤ segs.length := hi
      refine ih (i + 1) _ _ hdrop2 ?_ (Or.inr ⟨hstart.1, hlen2, hstart.2⟩)
      by_cases hl : lon.len < cur.len + 1
      · rw [if_pos hl]
        right
        refine ⟨?_, hstart.2⟩
        have h1 := hstart.1
        dsimp only
        omega
      · rw [if_neg hl]
        exact hlon
    · rw [if_neg hc]
      exact ih (i + 1) _ _ hdrop2 hlon (Or.inl rfl)

/-- The span chosen by the Display is empty or covers only zero segments. -/
theorem findZeroSpan_zero (segs : List Nat) :
    (findZeroSpan segs).len = 0 ∨ SpanZero segs (findZeroSpan segs) :=
  zeroSpanLoop_zero segs segs 0 _ _ rfl (Or.inl rfl) (Or.inl rfl)

/-- A zero run of length at least 2 anywhere gives the chosen span length
at least 2. -/
theorem findZeroSpan_run (segs : List Nat) (h : hasZeroRun2 segs = true) :
    2 ≤ (findZeroSpan segs).len :=
  zeroSpanLoop_run segs 0 _ _ h

/-- Two adjacent zero entries witness `hasZeroRun2`. -/
theorem hasZeroRun2_of_get :
    ∀ (segs : List Nat) (k : Nat), segs.get? k = some 0 → segs.get? (k + 1) = some 0 →
      hasZeroRun2 segs = true := by
  intro segs
  induction segs with
  | nil => intro k h _; cases h
  | cons a t ih =>
    intro k h1 h2
    cases t with
    | nil =>
      cases k with
      | zero => cases h2
      | succ k => cases h1
    | cons b rest =>
      rw [hasZeroRun2, Bool.or_eq_true]
      cases k with
      | zero =>
        left
        have ha : a = 0 := by cases h1; rfl
        have hb : b = 0 := by cases h2; rfl
        rw [ha, hb]
        simp
      | succ k =>
        right
        exact ih k h1 h2

/-- The chosen span of length at least 2 forces a zero run. -/
theorem hasZeroRun2_of_span (segs : List Nat) (h : 2 ≤ (findZeroSpan segs).len) :
    hasZeroRun2 segs = true := by
  rcases findZeroSpan_zero segs with hz | ⟨_, hzeros⟩
  · omega
  · exact hasZeroRun2_of_get segs (findZeroSpan segs).start
      (by rw [← Nat.add_zero (findZeroSpan segs).start] at hzeros ⊢
          exact hzeros 0 (by omega))
      (hzeros 1 (by omega))

/-- An IPv4-mapped segment list has a zero run (its first two groups are
zero). -/
theorem hasZeroRun2_of_mapped (segs : List Nat) (h : isV4Mapped segs = true) :
    hasZeroRun2 segs = true := by
  unfold isV4Mapped at h
  rw [decide_eq_true_iff] at h
  have h0 : segs.get? 0 = some 0 := by
    have := congrArg (fun l => List.get? l 0) h
    simpa [List.get?_take] using this
  have h1 : segs.get? 1 = some 0 := by
    have := congrArg (fun l => List.get? l 1) h
    simpa [List.get?_take] using this
  exact hasZeroRun2_of_get segs 0 h0 h1

/-- A double colon is visible anywhere it is appended. -/
theorem hasDoubleColon_append :
    ∀ (a b : List Char), hasDoubleColon (a ++ ':' :: ':' :: b) = true := by
  intro a
  induction a with
  | nil => intro b; rw [List.nil_append, hasDoubleColon]; simp
  | cons c a ih =>
    intro b
    cases a with
    | nil =>
      rw [List.cons_append, List.nil_append, hasDoubleColon, Bool.or_eq_true]
      right
      rw [hasDoubleColon]
      simp
    | cons d a2 =>
      rw [List.cons_append, List.cons_append, hasDoubleColon, Bool.or_eq_true]
      right
      have hd := ih b
      rwa [List.cons_append] at hd

/-- Without a zero run of length two, the Display writes all 8 groups. -/
theorem displayIpv6_full (segs : List Nat) (h : hasZeroRun2 segs = false) :
    displayIpv6 segs = fmtSubslice segs := by
  unfold displayIpv6
  have hm : ¬ isV4Mapped segs = true := by
    intro hmap
    rw [hasZeroRun2_of_mapped segs hmap] at h
    cases h
  rw [if_neg hm]
  have hz : ¬ 1 < (findZeroSpan segs).len := by
    intro hlt
    rw [hasZeroRun2_of_span segs hlt] at h
    cases h
  rw [if_neg hz]

/-- With a zero run of length two, the Display output contains `::`. -/
theorem displayIpv6_colon (segs : List Nat) (suffix : List Char)
    (h : hasZeroRun2 segs = true) :
    hasDoubleColon (displayIpv6 segs ++ suffix) = true := by
  unfold displayIpv6
  by_cases hm : isV4Mapped segs = true
  · rw [if_pos hm, List.cons_append, List.cons_append, hasDoubleColon]
    simp
  · rw [if_neg hm]
    have hz : 1 < (findZeroSpan segs).len := findZeroSpan_run segs h
    rw [if_pos hz, List.append_assoc, List.cons_append, List.cons_append]
    exact hasDoubleColon_append _ _

/-! ### Digit character facts -/

/-- A decimal digit value is also a hexadecimal digit value. -/
theorem toDigit_mono (c : Char) (d : Nat) (h : toDigit 10 c = some d) :
    toDigit 16 c = some d := by
  unfold toDigit at h ⊢
  cases hv : charDigitVal c with
  | none => rw [hv] at h; cases h
  | some x =>
    rw [hv] at h
    have h2 : (if x < 10 then some x else none) = some d := h
    show (if x < 16 then some x else none) = some d
    by_cases hx : x < 10
    · rw [if_pos hx] at h2
      cases h2
      rw [if_pos (by omega)]
    · rw [if_neg hx] at h2; cases h2

/-- `to_digit` inverts the decimal digit character. -/
theorem toDigit_decDigitChar (k : Nat) (h : k < 10) :
    toDigit 10 (decDigitChar k) = some k := by
  have hall : ∀ k : Fin 10, toDigit 10 (decDigitChar k.val) = some k.val := by decide
  exact hall ⟨k, h⟩

/-- `to_digit` inverts the hexadecimal digit character. -/
theorem toDigit_hexDigitChar (k : Nat) (h : k < 16) :
    toDigit 16 (hexDigitChar k) = some k := by
  have hall : ∀ k : Fin 16, toDigit 16 (hexDigitChar k.val) = some k.val := by decide
  exact hall ⟨k, h⟩

/-- Decimal digit characters are digits and distinct from the delimiters. -/
theorem decDigitChar_props :
    ∀ k : Fin 10, decDigitChar k.val ≠ '/' ∧ decDigitChar k.val ≠ '.' ∧
      decDigitChar k.val ≠ ':' ∧ decDigitChar k.val ≠ '+' ∧ decDigitChar k.val ≠ '-' ∧
      (1 ≤ k.val → decDigitChar k.val ≠ '0') := by decide

/-- Hexadecimal digit characters are distinct from the delimiters. -/
theorem hexDigitChar_props :
    ∀ k : Fin 16, hexDigitChar k.val ≠ '/' ∧ hexDigitChar k.val ≠ '.' ∧
      hexDigitChar k.val ≠ ':' := by decide

/-- The delimiters are not digits of either radix. -/
theorem delim_not_digit :
    toDigit 10 '.' = none ∧ toDigit 10 ':' = none ∧ toDigit 10 '/' = none ∧
    toDigit 16 '.' = none ∧ toDigit 16 ':' = none ∧ toDigit 16 '/' = none ∧
    toDigit 10 'f' = none := by decide

/-! ### Reading back rendered digits -/

/-- The accumulated value only grows while reading digits. -/
theorem digitsVal_le (radix : Nat) (hr : 1 ≤ radix) :
    ∀ (ds : List Nat) (acc : Nat), acc ≤ digitsVal radix acc ds := by
  intro ds
  induction ds with
  | nil => intro acc; exact Nat.le_refl _
  | cons d ds ih =>
    intro acc
    have h1 : acc * 1 ≤ acc * radix := Nat.mul_le_mul_left acc hr
    have h2 : acc ≤ acc * radix + d := by omega
    exact Nat.le_trans h2 (ih (acc * radix + d))

/-- `read_number`'s digit loop reads back a rendered digit list exactly,
stopping at the first non-digit. -/
theorem readNumLoop_digits (radix maxVal : Nat) (maxDigits : Option Nat) (hr : 1 ≤ radix)
    (dchar : Nat → Char) :
    ∀ (ds : List Nat) (rest : List Char) (acc cnt : Nat),
      (∀ d ∈ ds, toDigit radix (dchar d) = some d) →
      digitsVal radix acc ds ≤ maxVal →
      maxDigitsOk maxDigits (cnt + ds.length) →
      notDigit radix rest →
      readNumLoop radix maxVal maxDigits acc cnt (ds.map dchar ++ rest) =
        some (digitsVal radix acc ds, cnt + ds.length, rest) := by
  intro ds
  induction ds with
  | nil =>
    intro rest acc cnt _ _ _ hrest
    cases rest with
    | nil => rfl
    | cons c cs =>
      rw [List.map_nil, List.nil_append, readNumLoop]
      unfold notDigit at hrest
      rw [hrest]
      simp [digitsVal]
  | cons d ds ih =>
    intro rest acc cnt hds hval hmax hrest
    rw [List.map_cons, List.cons_append, readNumLoop]
    simp only [hds d (List.mem_cons_self d ds)]
    have hvge : acc * radix + d ≤ digitsVal radix acc (d :: ds) := by
      have h2 := digitsVal_le radix hr ds (acc * radix + d)
      rw [digitsVal]
      exact h2
    rw [if_neg (by omega), if_neg (by omega)]
    have hnm : overMaxDigits maxDigits (cnt + 1) = false := by
      cases maxDigits with
      | none => rfl
      | some m =>
        have h2 : cnt + (d :: ds).length ≤ m := hmax
        rw [List.length_cons] at h2
        unfold overMaxDigits
        simp only [decide_eq_false_iff_not]
        omega
    rw [hnm]
    rw [if_neg (by simp)]
    have hih := ih rest (acc * radix + d) (cnt + 1) (fun x hx => hds x (List.mem_cons_of_mem d hx))
      (by rw [digitsVal] at hval; exact hval)
      (by cases maxDigits with
          | none => trivial
          | some m =>
            have h2 : cnt + (d :: ds).length ≤ m := hmax
            rw [List.length_cons] at h2
            show cnt + 1 + ds.length ≤ m
            omega)
      hrest
    rw [hih]
    have hcnt : cnt + 1 + ds.length = cnt + (d :: ds).length := by
      rw [List.length_cons]; omega
    rw [hcnt, digitsVal]

/-- `read_number` reads back a rendered digit list exactly. -/
theorem readNumber_digits (radix maxVal : Nat) (maxDigits : Option Nat)
    (allowLeadingZeros : Bool) (hr : 1 ≤ radix) (dchar : Nat → Char)
    (ds : List Nat) (rest : List Char)
    (hne : ds ≠ [])
    (hd : ∀ d ∈ ds, toDigit radix (dchar d) = some d)
    (hval : digitsVal radix 0 ds ≤ maxVal)
    (hmax : maxDigitsOk maxDigits ds.length)
    (hrest : notDigit radix rest)
    (hzero : allowLeadingZeros = true ∨ ds.length = 1 ∨
      (∃ k, ds.head? = some k ∧ dchar k ≠ '0')) :
    readNumber radix maxVal maxDigits allowLeadingZeros (ds.map dchar ++ rest) =
      some (digitsVal radix 0 ds, rest) := by
  have hlen : 1 ≤ ds.length := by
    cases ds with
    | nil => exact absurd rfl hne
    | cons x xs => rw [List.length_cons]; omega
  have hmax0 : maxDigitsOk maxDigits (0 + ds.length) := by
    cases maxDigits with
    | none => trivial
    | some m =>
      have h2 : ds.length ≤ m := hmax
      show 0 + ds.length ≤ m
      omega
  unfold readNumber
  simp only [readNumLoop_digits radix maxVal maxDigits hr dchar ds rest 0 0 hd hval hmax0 hrest]
  rw [if_neg (by omega)]
  have hno : ¬ (allowLeadingZeros = false ∧
      hasLeadingZeroChar (ds.map dchar ++ rest) = true ∧ 1 < 0 + ds.length) := by
    rcases hzero with hz | hz | ⟨k, hk, hkc⟩
    · intro hcon
      rw [hz] at hcon
      cases hcon.1
    · intro hcon
      omega
    · intro hcon
      cases ds with
      | nil => exact absurd rfl hne
      | cons x xs =>
        have hx : x = k := by cases hk; rfl
        subst hx
        rw [List.map_cons, List.cons_append] at hcon
        have hz0 := hcon.2.1
        unfold hasLeadingZeroChar at hz0
        rw [decide_eq_true_iff] at hz0
        exact hkc hz0
  rw [if_neg hno]

/-! ### The rendered digit lists -/

/-- The decimal digits of a value below 1000 are digits. -/
theorem decDigitsU8_lt (n : Nat) (h : n < 1000) : ∀ d ∈ decDigitsU8 n, d < 10 := by
  unfold decDigitsU8
  intro d hd
  by_cases h1 : n < 10
  · rw [if_pos h1] at hd
    simp at hd
    omega
  · rw [if_neg h1] at hd
    by_cases h2 : n < 100
    · rw [if_pos h2] at hd
      simp at hd
      rcases hd with h3 | h3 <;> omega
    · rw [if_neg h2] at hd
      simp at hd
      rcases hd with h3 | h3 | h3 <;> omega

/-- Reading the decimal digits back gives the value. -/
theorem decDigitsU8_val (n : Nat) (h : n < 1000) : digitsVal 10 0 (decDigitsU8 n) = n := by
  unfold decDigitsU8
  by_cases h1 : n < 10
  · rw [if_pos h1]
    simp [digitsVal]
  · rw [if_neg h1]
    by_cases h2 : n < 100
    · rw [if_pos h2]
      simp [digitsVal]
      omega
    · rw [if_neg h2]
      simp [digitsVal]
      omega

/-- At most three decimal digits below 1000. -/
theorem decDigitsU8_len (n : Nat) : (decDigitsU8 n).length ≤ 3 := by
  unfold decDigitsU8
  by_cases h1 : n < 10
  · rw [if_pos h1]; simp
  · rw [if_neg h1]
    by_cases h2 : n < 100
    · rw [if_pos h2]; simp
    · rw [if_neg h2]; simp

/-- The decimal digit list is never empty. -/
theorem decDigitsU8_ne (n : Nat) : decDigitsU8 n ≠ [] := by
  unfold decDigitsU8
  by_cases h1 : n < 10
  · rw [if_pos h1]; simp
  · rw [if_neg h1]
    by_cases h2 : n < 100
    · rw [if_pos h2]; simp
    · rw [if_neg h2]; simp

/-- The hexadecimal digits of a `u16` value are hexadecimal digits. -/
theorem hexDigitsU16_lt (n : Nat) (h : n < 65536) : ∀ d ∈ hexDigitsU16 n, d < 16 := by
  unfold hexDigitsU16
  intro d hd
  by_cases h1 : n < 16
  · rw [if_pos h1] at hd
    simp at hd
    omega
  · rw [if_neg h1] at hd
    by_cases h2 : n < 256
    · rw [if_pos h2] at hd
      simp at hd
      rcases hd with h3 | h3 <;> omega
    · rw [if_neg h2] at hd
      by_cases h3 : n < 4096
      · rw [if_pos h3] at hd
        simp at hd
        rcases hd with h4 | h4 | h4 <;> omega
      · rw [if_neg h3] at hd
        simp at hd
        rcases hd with h4 | h4 | h4 | h4 <;> omega

/-- Reading the hexadecimal digits back gives the value. -/
theorem hexDigitsU16_val (n : Nat) (h : n < 65536) : digitsVal 16 0 (hexDigitsU16 n) = n := by
  unfold hexDigitsU16
  by_cases h1 : n < 16
  · rw [if_pos h1]
    simp [digitsVal]
  · rw [if_neg h1]
    by_cases h2 : n < 256
    · rw [if_pos h2]
      simp [digitsVal]
      omega
    · rw [if_neg h2]
      by_cases h3 : n < 4096
      · rw [if_pos h3]
        simp [digitsVal]
        omega
      · rw [if_neg h3]
        simp [digitsVal]
        omega

/-- At most four hexadecimal digits for a `u16`. -/
theorem hexDigitsU16_len (n : Nat) : (hexDigitsU16 n).length ≤ 4 := by
  unfold hexDigitsU16
  by_cases h1 : n < 16
  · rw [if_pos h1]; simp
  · rw [if_neg h1]
    by_cases h2 : n < 256
    · rw [if_pos h2]; simp
    · rw [if_neg h2]
      by_cases h3 : n < 4096
      · rw [if_pos h3]; simp
      · rw [if_neg h3]; simp

/-- The hexadecimal digit list is never empty. -/
theorem hexDigitsU16_ne (n : Nat) : hexDigitsU16 n ≠ [] := by
  unfold hexDigitsU16
  by_cases h1 : n < 16
  · rw [if_pos h1]; simp
  · rw [if_neg h1]
    by_cases h2 : n < 256
    · rw [if_pos h2]; simp
    · rw [if_neg h2]
      by_cases h3 : n < 4096
      · rw [if_pos h3]; simp
      · rw [if_neg h3]; simp

/-- A hexadecimal group render is read back exactly by `read_number(16)`. -/
theorem readHexGroup_render (n : Nat) (hn : n < 65536) (rest : List Char)
    (hrest : notDigit 16 rest) :
    readHexGroup (hexStrU16 n ++ rest) = some (n, rest) := by
  unfold readHexGroup hexStrU16
  rw [readNumber_digits 16 65535 (some 4) true (by omega) hexDigitChar (hexDigitsU16 n) rest
    (hexDigitsU16_ne n) (fun d hd => toDigit_hexDigitChar d (hexDigitsU16_lt n hn d hd))
    (by rw [hexDigitsU16_val n hn]; omega) (hexDigitsU16_len n) hrest (Or.inl rfl)]
  rw [hexDigitsU16_val n hn]

/-- A decimal octet render is read back exactly by `read_number(10)`. -/
theorem readIpv4Octet_render (n : Nat) (hn : n < 256) (rest : List Char)
    (hrest : notDigit 10 rest) :
    readIpv4Octet (decStrU8 n ++ rest) = some (n, rest) := by
  unfold readIpv4Octet decStrU8
  rw [readNumber_digits 10 255 (some 3) false (by omega) decDigitChar (decDigitsU8 n) rest
    (decDigitsU8_ne n) (fun d hd => toDigit_decDigitChar d (decDigitsU8_lt n (by omega) d hd))
    (by rw [decDigitsU8_val n (by omega)]; omega) (decDigitsU8_len n) hrest ?_]
  · rw [decDigitsU8_val n (by omega)]
  · right
    by_cases h1 : n < 10
    · left
      unfold decDigitsU8
      rw [if_pos h1]
      rfl
    · right
      by_cases h2 : n < 100
      · refine ⟨n / 10, ?_, ?_⟩
        · unfold decDigitsU8
          rw [if_neg h1, if_pos h2]
          rfl
        · exact (decDigitChar_props ⟨n / 10, by omega⟩).2.2.2.2.2 (by show 1 ≤ n / 10; omega)
      · refine ⟨n / 100, ?_, ?_⟩
        · unfold decDigitsU8
          rw [if_neg h1, if_neg h2]
          rfl
        · exact (decDigitChar_props ⟨n / 100, by omega⟩).2.2.2.2.2 (by show 1 ≤ n / 100; omega)

/-- The `from_str_radix` digit loop reads back rendered decimal digits. -/
theorem parseU8Loop_digits :
    ∀ (ds : List Nat) (acc : Nat),
      (∀ d ∈ ds, d < 10) → digitsVal 10 acc ds ≤ 255 →
      parseU8Loop acc (ds.map decDigitChar) = some (digitsVal 10 acc ds) := by
  intro ds
  induction ds with
  | nil => intro acc _ _; rfl
  | cons d ds ih =>
    intro acc hds hval
    rw [List.map_cons, parseU8Loop]
    simp only [toDigit_decDigitChar d (hds d (List.mem_cons_self d ds))]
    have hvge := digitsVal_le 10 (by omega) ds (acc * 10 + d)
    rw [digitsVal] at hval
    rw [digitsVal]
    rw [if_neg (by omega), if_neg (by omega)]
    exact ih (acc * 10 + d) (fun x hx => hds x (List.mem_cons_of_mem d hx)) hval

/-- `u8::from_str` reads back the decimal rendering of a `u8` value. -/
theorem parseU8_dec (n : Nat) (h : n ≤ 255) : parseU8 (decStrU8 n) = some n := by
  have hne := decDigitsU8_ne n
  have hlt := decDigitsU8_lt n (by omega)
  have hval := decDigitsU8_val n (by omega)
  unfold decStrU8
  cases hds : decDigitsU8 n with
  | nil => exact absurd hds hne
  | cons d ds =>
    have hd10 : d < 10 := hlt d (by rw [hds]; exact List.mem_cons_self d ds)
    rw [List.map_cons, parseU8]
    rw [if_neg ((decDigitChar_props ⟨d, hd10⟩).2.2.2.1)]
    rw [if_neg ((decDigitChar_props ⟨d, hd10⟩).2.2.2.2.1)]
    rw [← List.map_cons]
    rw [parseU8Loop_digits (d :: ds) 0 (by rw [← hds]; exact hlt) (by rw [← hds, hval]; omega)]
    rw [← hds, hval]

/-- The `from_str_radix` loop never returns a value above 255. -/
theorem parseU8Loop_le :
    ∀ (s : List Char) (acc : Nat), acc ≤ 255 →
      ∀ n, parseU8Loop acc s = some n → n ≤ 255 := by
  intro s
  induction s with
  | nil => intro acc hacc n h; cases h; exact hacc
  | cons c cs ih =>
    intro acc hacc n h
    rw [parseU8Loop] at h
    cases ht : toDigit 10 c with
    | none =>
      simp only [ht] at h
      cases h
    | some d =>
      simp only [ht] at h
      by_cases h1 : 255 < acc * 10
      · rw [if_pos h1] at h; cases h
      · rw [if_neg h1] at h
        by_cases h2 : 255 < acc * 10 + d
        · rw [if_pos h2] at h; cases h
        · rw [if_neg h2] at h
          exact ih (acc * 10 + d) (by omega) n h

/-- `u8::from_str` never returns a value above 255. -/
theorem parseU8_le (s : List Char) (n : Nat) (h : parseU8 s = some n) : n ≤ 255 := by
  cases s with
  | nil => rw [parseU8] at h; cases h
  | cons c rest =>
    rw [parseU8] at h
    by_cases hp : c = '+'
    · rw [if_pos hp] at h
      by_cases hre : rest = []
      · rw [if_pos hre] at h; cases h
      · rw [if_neg hre] at h
        exact parseU8Loop_le rest 0 (by omega) n h
    · rw [if_neg hp] at h
      by_cases hm : c = '-'
      · rw [if_pos hm] at h; cases h
      · rw [if_neg hm] at h
        exact parseU8Loop_le (c :: rest) 0 (by omega) n h

/-- `read_number`'s loop never exceeds the type maximum. -/
theorem readNumLoop_le (radix maxVal : Nat) (maxDigits : Option Nat) :
    ∀ (s : List Char) (acc cnt : Nat), acc ≤ maxVal →
      ∀ v cnt2 rest, readNumLoop radix maxVal maxDigits acc cnt s = some (v, cnt2, rest) →
        v ≤ maxVal := by
  intro s
  induction s with
  | nil => intro acc cnt hacc v cnt2 rest h; cases h; exact hacc
  | cons c cs ih =>
    intro acc cnt hacc v cnt2 rest h
    rw [readNumLoop] at h
    cases ht : toDigit radix c with
    | none =>
      simp only [ht] at h
      cases h
      exact hacc
    | some d =>
      simp only [ht] at h
      by_cases h1 : maxVal < acc * radix
      · rw [if_pos h1] at h; cases h
      · rw [if_neg h1] at h
        by_cases h2 : maxVal < acc * radix + d
        · rw [if_pos h2] at h; cases h
        · rw [if_neg h2] at h
          by_cases h3 : overMaxDigits maxDigits (cnt + 1) = true
          · rw [if_pos h3] at h; cases h
          · rw [if_neg h3] at h
            exact ih (acc * radix + d) (cnt + 1) (by omega) v cnt2 rest h

/-- `read_number` never exceeds the type maximum. -/
theorem readNumber_le (radix maxVal : Nat) (maxDigits : Option Nat) (alz : Bool)
    (s : List Char) (v : Nat) (rest : List Char)
    (h : readNumber radix maxVal maxDigits alz s = some (v, rest)) : v ≤ maxVal := by
  unfold readNumber at h
  cases hloop : readNumLoop radix maxVal maxDigits 0 0 s with
  | none => rw [hloop] at h; cases h
  | some t =>
    obtain ⟨v2, cnt2, rest2⟩ := t
    simp only [hloop] at h
    by_cases h1 : cnt2 = 0
    · rw [if_pos h1] at h; cases h
    · rw [if_neg h1] at h
      by_cases h2 : alz = false ∧ hasLeadingZeroChar s = true ∧ 1 < cnt2
      · rw [if_pos h2] at h; cases h
      · rw [if_neg h2] at h
        cases h
        exact readNumLoop_le radix maxVal maxDigits s 0 0 (by omega) _ cnt2 _ hloop

/-- The characters consumed by `read_number`'s loop are digits. -/
theorem readNumLoop_consumed (radix maxVal : Nat) (maxDigits : Option Nat) :
    ∀ (s : List Char) (acc cnt v cnt2 : Nat) (rest : List Char),
      readNumLoop radix maxVal maxDigits acc cnt s = some (v, cnt2, rest) →
      ∃ pre, s = pre ++ rest ∧ ∀ c ∈ pre, (toDigit radix c).isSome = true := by
  intro s
  induction s with
  | nil =>
    intro acc cnt v cnt2 rest h
    cases h
    exact ⟨[], rfl, fun c hc => absurd hc (List.not_mem_nil c)⟩
  | cons c cs ih =>
    intro acc cnt v cnt2 rest h
    rw [readNumLoop] at h
    cases ht : toDigit radix c with
    | none =>
      simp only [ht] at h
      cases h
      exact ⟨[], rfl, fun x hx => absurd hx (List.not_mem_nil x)⟩
    | some d =>
      simp only [ht] at h
      by_cases h1 : maxVal < acc * radix
      · rw [if_pos h1] at h; cases h
      · rw [if_neg h1] at h
        by_cases h2 : maxVal < acc * radix + d
        · rw [if_pos h2] at h; cases h
        · rw [if_neg h2] at h
          by_cases h3 : overMaxDigits maxDigits (cnt + 1) = true
          · rw [if_pos h3] at h; cases h
          · rw [if_neg h3] at h
            obtain ⟨pre, hpre, hdig⟩ := ih (acc * radix + d) (cnt + 1) v cnt2 rest h
            refine ⟨c :: pre, by rw [List.cons_append, hpre], ?_⟩
            intro x hx
            rcases List.mem_cons.mp hx with hxc | hxp
            · subst hxc
              rw [ht]
              rfl
            · exact hdig x hxp

/-- The characters consumed by `read_number` are digits. -/
theorem readNumber_consumed (radix maxVal : Nat) (maxDigits : Option Nat) (alz : Bool)
    (s : List Char) (v : Nat) (rest : List Char)
    (h : readNumber radix maxVal maxDigits alz s = some (v, rest)) :
    ∃ pre, s = pre ++ rest ∧ ∀ c ∈ pre, (toDigit radix c).isSome = true := by
  unfold readNumber at h
  cases hloop : readNumLoop radix maxVal maxDigits 0 0 s with
  | none => rw [hloop] at h; cases h
  | some t =>
    obtain ⟨v2, cnt2, rest2⟩ := t
    simp only [hloop] at h
    by_cases h1 : cnt2 = 0
    · rw [if_pos h1] at h; cases h
    · rw [if_neg h1] at h
      by_cases h2 : alz = false ∧ hasLeadingZeroChar s = true ∧ 1 < cnt2
      · rw [if_pos h2] at h; cases h
      · rw [if_neg h2] at h
        cases h
        exact readNumLoop_consumed radix maxVal maxDigits s 0 0 v cnt2 rest hloop

/-- A zero separator index reads nothing. -/
theorem readSeparator_zero {α : Type} (sep : Char)
    (inner : List Char → Option (α × List Char)) (input : List Char) :
    readSeparator sep 0 inner input = inner input := by
  unfold readSeparator
  rw [if_pos rfl]

/-- A positive separator index requires the separator character first. -/
theorem readSeparator_pos_cons {α : Type} (sep : Char) (i : Nat) (hi : ¬ i = 0)
    (inner : List Char → Option (α × List Char)) (c : Char) (cs : List Char) :
    readSeparator sep i inner (c :: cs) = if c = sep then inner cs else none := by
  unfold readSeparator
  rw [if_neg hi]

/-- A positive separator index fails on empty input. -/
theorem readSeparator_pos_nil {α : Type} (sep : Char) (i : Nat) (hi : ¬ i = 0)
    (inner : List Char → Option (α × List Char)) :
    readSeparator sep i inner [] = none := by
  unfold readSeparator
  rw [if_neg hi]

/-! ### Splitting on the slash -/

/-- Without the separator, `split` yields the one whole part. -/
theorem splitOnChar_not_mem (sep : Char) :
    ∀ s : List Char, sep ∉ s → splitOnChar sep s = [s] := by
  intro s
  induction s with
  | nil => intro _; rfl
  | cons c cs ih =>
    intro h
    rw [splitOnChar]
    have hc : ¬ c = sep := fun he => h (by rw [he]; exact List.mem_cons_self sep cs)
    rw [if_neg hc]
    simp only [ih (fun hm => h (List.mem_cons_of_mem c hm))]

/-- Splitting at the first separator. -/
theorem splitOnChar_append (sep : Char) :
    ∀ (a b : List Char), sep ∉ a →
      splitOnChar sep (a ++ sep :: b) = a :: splitOnChar sep b := by
  intro a
  induction a with
  | nil =>
    intro b _
    rw [List.nil_append, splitOnChar, if_pos rfl]
  | cons c a ih =>
    intro b h
    rw [List.cons_append, splitOnChar]
    have hc : ¬ c = sep := fun he => h (by rw [he]; exact List.mem_cons_self sep a)
    rw [if_neg hc]
    simp only [ih b (fun hm => h (List.mem_cons_of_mem c hm))]

/-- `split` yields at least two parts when the separator occurs. -/
theorem splitOnChar_two (sep : Char) :
    ∀ s : List Char, sep ∈ s → 2 ≤ (splitOnChar sep s).length := by
  intro s
  induction s with
  | nil => intro h; cases h
  | cons c cs ih =>
    intro h
    rw [splitOnChar]
    by_cases hc : c = sep
    · rw [if_pos hc, List.length_cons]
      cases hsp : splitOnChar sep cs with
      | nil =>
        cases cs with
        | nil => cases hsp
        | cons x xs =>
          rw [splitOnChar] at hsp
          by_cases hx : x = sep
          · rw [if_pos hx] at hsp; cases hsp
          · rw [if_neg hx] at hsp
            cases hsp2 : splitOnChar sep xs with
            | nil => rw [hsp2] at hsp; cases hsp
            | cons p ps => rw [hsp2] at hsp; cases hsp
      | cons p ps => rw [List.length_cons]; omega
    · rw [if_neg hc]
      have hmem : sep ∈ cs := by
        rcases List.mem_cons.mp h with he | hm
        · exact absurd he.symm hc
        · exact hm
      have h2 := ih hmem
      cases hsp : splitOnChar sep cs with
      | nil =>
        rw [hsp] at h2
        simp at h2
      | cons p ps =>
        rw [hsp] at h2
        exact h2

/-! ### Character sets of the renderings -/

/-- Characters of a rendered `u8` are decimal digits, so none of the
delimiters. -/
theorem decStrU8_chars (n : Nat) (h : n < 1000) :
    ∀ c ∈ decStrU8 n, c ≠ '/' ∧ c ≠ '.' ∧ c ≠ ':' := by
  intro c hc
  unfold decStrU8 at hc
  obtain ⟨d, hd, hdc⟩ := List.mem_map.mp hc
  have hd10 : d < 10 := decDigitsU8_lt n h d hd
  have hp := decDigitChar_props ⟨d, hd10⟩
  rw [← hdc]
  exact ⟨hp.1, hp.2.1, hp.2.2.1⟩

/-- Characters of a rendered `u16` hexadecimal group are not delimiters. -/
theorem hexStrU16_chars (n : Nat) (h : n < 65536) :
    ∀ c ∈ hexStrU16 n, c ≠ '/' ∧ c ≠ '.' ∧ c ≠ ':' := by
  intro c hc
  unfold hexStrU16 at hc
  obtain ⟨d, hd, hdc⟩ := List.mem_map.mp hc
  have hd16 : d < 16 := hexDigitsU16_lt n h d hd
  have hp := hexDigitChar_props ⟨d, hd16⟩
  rw [← hdc]
  exact ⟨hp.1, hp.2.1, hp.2.2⟩

/-- The slash never occurs in a rendered dotted quad. -/
theorem displayIpv4_no_slash (a b c d : Nat) (ha : a < 256) (hb : b < 256)
    (hc : c < 256) (hd : d < 256) : '/' ∉ displayIpv4 a b c d := by
  intro hm
  unfold displayIpv4 at hm
  simp only [List.mem_append, List.mem_cons] at hm
  rcases hm with h1 | h2 | h1 | h2 | h1 | h2 | h1
  · exact (decStrU8_chars a (by omega) _ h1).1 rfl
  · cases h2
  · exact (decStrU8_chars b (by omega) _ h1).1 rfl
  · cases h2
  · exact (decStrU8_chars c (by omega) _ h1).1 rfl
  · cases h2
  · exact (decStrU8_chars d (by omega) _ h1).1 rfl

/-- The slash never occurs in colon-joined hexadecimal groups. -/
theorem fmtSubsliceTail_no_slash :
    ∀ gs : List Nat, (∀ g ∈ gs, g < 65536) → '/' ∉ fmtSubsliceTail gs := by
  intro gs
  induction gs with
  | nil => intro _ hm; cases hm
  | cons g gs ih =>
    intro hb hm
    rw [fmtSubsliceTail] at hm
    rcases List.mem_cons.mp hm with he | hm2
    · cases he
    · rcases List.mem_append.mp hm2 with h1 | h2
      · exact (hexStrU16_chars g (hb g (List.mem_cons_self g gs)) _ h1).1 rfl
      · exact ih (fun x hx => hb x (List.mem_cons_of_mem g hx)) h2

/-- The slash never occurs in a `fmt_subslice` rendering. -/
theorem fmtSubslice_no_slash (gs : List Nat) (hb : ∀ g ∈ gs, g < 65536) :
    '/' ∉ fmtSubslice gs := by
  cases gs with
  | nil => intro hm; cases hm
  | cons g gs =>
    intro hm
    rw [fmtSubslice] at hm
    rcases List.mem_append.mp hm with h1 | h2
    · exact (hexStrU16_chars g (hb g (List.mem_cons_self g gs)) _ h1).1 rfl
    · exact fmtSubsliceTail_no_slash gs (fun x hx => hb x (List.mem_cons_of_mem g hx)) h2

/-- The slash never occurs in the IPv6 Display of in-range segments. -/
theorem displayIpv6_no_slash (segs : List Nat) (hb : ∀ g ∈ segs, g < 65536) :
    '/' ∉ displayIpv6 segs := by
  have h6 : segs.getD 6 0 < 65536 := by
    rw [List.getD_eq_get?]
    cases hg : segs.get? 6 with
    | none => simp
    | some x =>
      have hx := List.get?_mem hg
      simp only [Option.getD_some]
      exact hb x hx
  have h7 : segs.getD 7 0 < 65536 := by
    rw [List.getD_eq_get?]
    cases hg : segs.get? 7 with
    | none => simp
    | some x =>
      have hx := List.get?_mem hg
      simp only [Option.getD_some]
      exact hb x hx
  unfold displayIpv6
  by_cases hm : isV4Mapped segs = true
  · rw [if_pos hm]
    intro hmem
    simp only [List.mem_cons] at hmem
    rcases hmem with h | h | h | h | h | h | h | h
    · cases h
    · cases h
    · cases h
    · cases h
    · cases h
    · cases h
    · cases h
    · exact displayIpv4_no_slash _ _ _ _ (by omega) (by omega) (by omega) (by omega) h
  · rw [if_neg hm]
    by_cases hz : 1 < (findZeroSpan segs).len
    · rw [if_pos hz]
      intro hmem
      rcases List.mem_append.mp hmem with h1 | h2
      · exact fmtSubslice_no_slash _ (fun x hx => hb x (List.mem_of_mem_take hx)) h1
      · rcases List.mem_cons.mp h2 with he | h3
        · cases he
        · rcases List.mem_cons.mp h3 with he | h4
          · cases he
          · exact fmtSubslice_no_slash _ (fun x hx => hb x (List.mem_of_mem_drop hx)) h4
    · rw [if_neg hz]
      exact fmtSubslice_no_slash segs hb

/-! ### `read_ipv4_addr` facts -/

/-- The characters consumed by `read_ipv4_addr` are digits and dots. -/
theorem readIpv4_consumed (input : List Char) (oct : List Nat) (rest : List Char)
    (h : readIpv4 input = some (oct, rest)) :
    ∃ pre, input = pre ++ rest ∧
      ∀ c ∈ pre, ((toDigit 10 c).isSome = true ∨ c = '.') := by
  unfold readIpv4 at h
  rw [readSeparator_zero] at h
  cases h1 : readIpv4Octet input with
  | none => rw [h1] at h; cases h
  | some t1 =>
    obtain ⟨a, r1⟩ := t1
    rw [h1] at h
    simp only [Option.bind_eq_bind, Option.some_bind] at h
    obtain ⟨p1, hp1, hd1⟩ := readNumber_consumed 10 255 (some 3) false input a r1 h1
    cases r1 with
    | nil =>
      rw [readSeparator_pos_nil '.' 1 (by omega)] at h
      cases h
    | cons c1 cs1 =>
      rw [readSeparator_pos_cons '.' 1 (by omega)] at h
      by_cases hc1 : c1 = '.'
      · rw [if_pos hc1] at h
        cases h2 : readIpv4Octet cs1 with
        | none => rw [h2] at h; cases h
        | some t2 =>
          obtain ⟨b, r2⟩ := t2
          rw [h2] at h
          simp only [Option.some_bind] at h
          obtain ⟨p2, hp2, hd2⟩ := readNumber_consumed 10 255 (some 3) false cs1 b r2 h2
          cases r2 with
          | nil =>
            rw [readSeparator_pos_nil '.' 2 (by omega)] at h
            cases h
          | cons c2 cs2 =>
            rw [readSeparator_pos_cons '.' 2 (by omega)] at h
            by_cases hc2 : c2 = '.'
            · rw [if_pos hc2] at h
              cases h3 : readIpv4Octet cs2 with
              | none => rw [h3] at h; cases h
              | some t3 =>
                obtain ⟨c, r3⟩ := t3
                rw [h3] at h
                simp only [Option.some_bind] at h
                obtain ⟨p3, hp3, hd3⟩ := readNumber_consumed 10 255 (some 3) false cs2 c r3 h3
                cases r3 with
                | nil =>
                  rw [readSeparator_pos_nil '.' 3 (by omega)] at h
                  cases h
                | cons c3 cs3 =>
                  rw [readSeparator_pos_cons '.' 3 (by omega)] at h
                  by_cases hc3 : c3 = '.'
                  · rw [if_pos hc3] at h
                    cases h4 : readIpv4Octet cs3 with
                    | none => rw [h4] at h; cases h
                    | some t4 =>
                      obtain ⟨d, r4⟩ := t4
                      rw [h4] at h
                      simp only [Option.some_bind] at h
                      obtain ⟨p4, hp4, hd4⟩ :=
                        readNumber_consumed 10 255 (some 3) false cs3 d r4 h4
                      cases h
                      refine ⟨p1 ++ '.' :: (p2 ++ '.' :: (p3 ++ '.' :: p4)), ?_, ?_⟩
                      · rw [hp1, hp2, hp3, hp4]
                        simp
                        exact ⟨hc1, hc2, hc3⟩
                      · intro x hx
                        simp only [List.mem_append, List.mem_cons] at hx
                        rcases hx with hx | hx | hx | hx | hx | hx | hx
                        · exact Or.inl (hd1 x hx)
                        · exact Or.inr hx
                        · exact Or.inl (hd2 x hx)
                        · exact Or.inr hx
                        · exact Or.inl (hd3 x hx)
                        · exact Or.inr hx
                        · exact Or.inl (hd4 x hx)
                  · rw [if_neg hc3] at h
                    cases h
            · rw [if_neg hc2] at h
              cases h
      · rw [if_neg hc1] at h
        cases h

/-- `read_ipv4_addr` fails on input without a dot. -/
theorem readIpv4_noDot (input : List Char) (hnd : '.' ∉ input) :
    readIpv4 input = none := by
  unfold readIpv4
  rw [readSeparator_zero]
  cases h1 : readIpv4Octet input with
  | none => rfl
  | some t1 =>
    obtain ⟨a, r1⟩ := t1
    simp only [Option.bind_eq_bind, Option.some_bind]
    obtain ⟨p1, hp1, _⟩ := readNumber_consumed 10 255 (some 3) false input a r1 h1
    have hnr : '.' ∉ r1 := by
      intro hm
      exact hnd (by rw [hp1]; exact List.mem_append_right p1 hm)
    cases r1 with
    | nil =>
      rw [readSeparator_pos_nil '.' 1 (by omega)]
      rfl
    | cons c1 cs1 =>
      rw [readSeparator_pos_cons '.' 1 (by omega)]
      have hc1 : ¬ c1 = '.' := fun he => hnr (by rw [he]; exact List.mem_cons_self _ cs1)
      rw [if_neg hc1]
      rfl

/-- A decimal digit character is a hexadecimal digit character. -/
theorem toDigit10_isSome_16 (c : Char) (h : (toDigit 10 c).isSome = true) :
    (toDigit 16 c).isSome = true := by
  cases ht : toDigit 10 c with
  | none => rw [ht] at h; cases h
  | some d => rw [toDigit_mono c d ht]; rfl

/-- A parsed IPv4 address string contains only digits and dots, hence no
slash. -/
theorem parseIpv4Addr_no_slash (a : List Char) (oct : List Nat)
    (h : parseIpv4Addr a = some oct) : '/' ∉ a := by
  unfold parseIpv4Addr at h
  cases hr : readIpv4 a with
  | none => rw [hr] at h; cases h
  | some t =>
    obtain ⟨o, rest⟩ := t
    rw [hr] at h
    cases rest with
    | nil =>
      obtain ⟨pre, hpre, hchars⟩ := readIpv4_consumed a o [] hr
      rw [List.append_nil] at hpre
      subst hpre
      intro hm
      rcases hchars '/' hm with hd | hd
      · rw [delim_not_digit.2.2.1] at hd
        cases hd
      · cases hd
    | cons x xs => cases h

/-- The characters consumed by `read_groups` are hexadecimal digits, colons
and dots. -/
theorem readGroups_consumed :
    ∀ (rem i : Nat) (input : List Char) (gs : List Nat) (b : Bool) (rest : List Char),
      readGroups rem i input = (gs, b, rest) →
      ∃ pre, input = pre ++ rest ∧
        ∀ c ∈ pre, ((toDigit 16 c).isSome = true ∨ c = ':' ∨ c = '.') := by
  intro rem
  induction rem with
  | zero =>
    intro i input gs b rest h
    rw [readGroups] at h
    cases h
    exact ⟨[], rfl, fun c hc => absurd hc (List.not_mem_nil c)⟩
  | succ rem ih =>
    intro i input gs b rest h
    rw [readGroups] at h
    cases hemb : (if 1 ≤ rem then readSeparator ':' i readIpv4 input else none) with
    | some t =>
      obtain ⟨oct2, rest2⟩ := t
      rw [hemb] at h
      cases h
      by_cases hrem : 1 ≤ rem
      · rw [if_pos hrem] at hemb
        by_cases hi : i = 0
        · subst hi
          rw [readSeparator_zero] at hemb
          obtain ⟨pre, hpre, hchars⟩ := readIpv4_consumed input oct2 rest hemb
          refine ⟨pre, hpre, fun c hc => ?_⟩
          rcases hchars c hc with hd | hd
          · exact Or.inl (toDigit10_isSome_16 c hd)
          · exact Or.inr (Or.inr hd)
        · cases input with
          | nil =>
            rw [readSeparator_pos_nil ':' i hi] at hemb
            cases hemb
          | cons c0 cs0 =>
            rw [readSeparator_pos_cons ':' i hi] at hemb
            by_cases hc0 : c0 = ':'
            · rw [if_pos hc0] at hemb
              obtain ⟨pre, hpre, hchars⟩ := readIpv4_consumed cs0 oct2 rest hemb
              refine ⟨c0 :: pre, by rw [List.cons_append, hpre], fun c hc => ?_⟩
              rcases List.mem_cons.mp hc with hcc | hcp
              · subst hcc
                exact Or.inr (Or.inl hc0)
              · rcases hchars c hcp with hd | hd
                · exact Or.inl (toDigit10_isSome_16 c hd)
                · exact Or.inr (Or.inr hd)
            · rw [if_neg hc0] at hemb
              cases hemb
      · rw [if_neg hrem] at hemb
        cases hemb
    | none =>
      rw [hemb] at h
      cases hsep : readSeparator ':' i readHexGroup input with
      | some t =>
        obtain ⟨g, rest3⟩ := t
        rw [hsep] at h
        cases hrec : readGroups rem (i + 1) rest3 with
        | mk gs2 t2 =>
          obtain ⟨b2, rest4⟩ := t2
          dsimp only at h
          rw [hrec] at h
          cases h
          obtain ⟨pre2, hpre2, hchars2⟩ := ih (i + 1) rest3 gs2 b2 rest4 hrec
          have hsepchars : ∃ pre1, input = pre1 ++ rest3 ∧
              ∀ c ∈ pre1, ((toDigit 16 c).isSome = true ∨ c = ':' ∨ c = '.') := by
            by_cases hi : i = 0
            · subst hi
              rw [readSeparator_zero] at hsep
              obtain ⟨pre1, hpre1, hchars1⟩ :=
                readNumber_consumed 16 65535 (some 4) true input g rest3 hsep
              exact ⟨pre1, hpre1, fun c hc => Or.inl (hchars1 c hc)⟩
            · cases input with
              | nil =>
                rw [readSeparator_pos_nil ':' i hi] at hsep
                cases hsep
              | cons c0 cs0 =>
                rw [readSeparator_pos_cons ':' i hi] at hsep
                by_cases hc0 : c0 = ':'
                · rw [if_pos hc0] at hsep
                  obtain ⟨pre1, hpre1, hchars1⟩ :=
                    readNumber_consumed 16 65535 (some 4) true cs0 g rest3 hsep
                  refine ⟨c0 :: pre1, by rw [List.cons_append, hpre1], fun c hc => ?_⟩
                  rcases List.mem_cons.mp hc with hcc | hcp
                  · subst hcc
                    exact Or.inr (Or.inl hc0)
                  · exact Or.inl (hchars1 c hcp)
                · rw [if_neg hc0] at hsep
                  cases hsep
          obtain ⟨pre1, hpre1, hchars1⟩ := hsepchars
          refine ⟨pre1 ++ pre2, ?_, fun c hc => ?_⟩
          · rw [List.append_assoc, ← hpre2, hpre1]
          · rcases List.mem_append.mp hc with h1 | h2
            · exact hchars1 c h1
            · exact hchars2 c h2
      | none =>
        rw [hsep] at h
        cases h
        exact ⟨[], rfl, fun c hc => absurd hc (List.not_mem_nil c)⟩

/-- A parsed IPv6 address string contains only hexadecimal digits, colons
and dots, hence no slash. -/
theorem parseIpv6Addr_no_slash (a : List Char) (segs : List Nat)
    (h : parseIpv6Addr a = some segs) : '/' ∉ a := by
  unfold parseIpv6Addr at h
  cases hr : readIpv6 a with
  | none => rw [hr] at h; cases h
  | some t =>
    obtain ⟨s2, rest⟩ := t
    rw [hr] at h
    cases rest with
    | cons x xs => cases h
    | nil =>
      unfold readIpv6 at hr
      cases hh : readGroups 8 0 a with
      | mk head t2 =>
        obtain ⟨headIpv4, rest1⟩ := t2
        rw [hh] at hr
        dsimp only at hr
        obtain ⟨pre1, hpre1, hchars1⟩ := readGroups_consumed 8 0 a head headIpv4 rest1 hh
        by_cases h8 : head.length = 8
        · rw [if_pos h8] at hr
          cases hr
          rw [List.append_nil] at hpre1
          subst hpre1
          intro hm
          rcases hchars1 '/' hm with hd | hd | hd
          · rw [delim_not_digit.2.2.2.2.2.1] at hd
            cases hd
          · cases hd
          · cases hd
        · rw [if_neg h8] at hr
          by_cases hip : headIpv4 = true
          · rw [if_pos hip] at hr
            cases hr
          · rw [if_neg hip] at hr
            split at hr
            · next _ rest2 =>
              cases ht : readGroups (8 - (head.length + 1)) 0 rest2 with
              | mk tail t3 =>
                obtain ⟨b3, rest3⟩ := t3
                rw [ht] at hr
                dsimp only at hr
                cases rest3 with
                | cons y ys => cases hr
                | nil =>
                  obtain ⟨pre2, hpre2, hchars2⟩ :=
                    readGroups_consumed (8 - (head.length + 1)) 0 rest2 tail b3 [] ht
                  rw [List.append_nil] at hpre2
                  subst hpre2
                  intro hm
                  rw [hpre1] at hm
                  rcases List.mem_append.mp hm with h1 | h2
                  · rcases hchars1 '/' h1 with hd | hd | hd
                    · rw [delim_not_digit.2.2.2.2.2.1] at hd
                      cases hd
                    · cases hd
                    · cases hd
                  · rcases List.mem_cons.mp h2 with hd | h3
                    · cases hd
                    · rcases List.mem_cons.mp h3 with hd | h4
                      · cases hd
                      · rcases hchars2 '/' h4 with hd | hd | hd
                        · rw [delim_not_digit.2.2.2.2.2.1] at hd
                          cases hd
                        · cases hd
                        · cases hd
            · next => cases hr

/-- A successful `read_separator` comes from a successful inner read. -/
theorem readSeparator_some {α : Type} {sep : Char} {i : Nat}
    {inner : List Char → Option (α × List Char)} {input : List Char}
    {out : α × List Char} (h : readSeparator sep i inner input = some out) :
    ∃ input2, inner input2 = some out := by
  by_cases hi : i = 0
  · subst hi
    rw [readSeparator_zero] at h
    exact ⟨input, h⟩
  · cases input with
    | nil =>
      rw [readSeparator_pos_nil sep i hi] at h
      cases h
    | cons c cs =>
      rw [readSeparator_pos_cons sep i hi] at h
      by_cases hcs : c = sep
      · rw [if_pos hcs] at h
        exact ⟨cs, h⟩
      · rw [if_neg hcs] at h
        cases h

/-- A non-digit head witnesses the stop condition. -/
theorem notDigit_cons {radix : Nat} {c : Char} (h : toDigit radix c = none)
    (xs : List Char) : notDigit radix (c :: xs) := h

/-! ### Reading back a rendered dotted quad -/

/-- `read_ipv4_addr` reads back a rendered dotted quad exactly. -/
theorem readIpv4_render (a b c d : Nat) (ha : a < 256) (hb : b < 256) (hc : c < 256)
    (hd : d < 256) (rest : List Char) (hrest : notDigit 10 rest) :
    readIpv4 (displayIpv4 a b c d ++ rest) = some ([a, b, c, d], rest) := by
  unfold readIpv4 displayIpv4
  rw [readSeparator_zero]
  rw [List.append_assoc, List.cons_append]
  rw [readIpv4Octet_render a ha _ (notDigit_cons delim_not_digit.1 _)]
  simp only [Option.bind_eq_bind, Option.some_bind]
  rw [readSeparator_pos_cons '.' 1 (by omega), if_pos rfl]
  rw [List.append_assoc, List.cons_append]
  rw [readIpv4Octet_render b hb _ (notDigit_cons delim_not_digit.1 _)]
  simp only [Option.some_bind]
  rw [readSeparator_pos_cons '.' 2 (by omega), if_pos rfl]
  rw [List.append_assoc, List.cons_append]
  rw [readIpv4Octet_render c hc _ (notDigit_cons delim_not_digit.1 _)]
  simp only [Option.some_bind]
  rw [readSeparator_pos_cons '.' 3 (by omega), if_pos rfl]
  rw [readIpv4Octet_render d hd rest hrest]
  simp only [Option.some_bind]

/-- `Ipv4Addr::from_str` reads back a rendered dotted quad. -/
theorem parseIpv4Addr_render (a b c d : Nat) (ha : a < 256) (hb : b < 256) (hc : c < 256)
    (hd : d < 256) : parseIpv4Addr (displayIpv4 a b c d) = some [a, b, c, d] := by
  unfold parseIpv4Addr
  rw [show displayIpv4 a b c d = displayIpv4 a b c d ++ [] from (List.append_nil _).symm]
  rw [readIpv4_render a b c d ha hb hc hd [] trivial]

/-- The octets returned by `read_ipv4_addr` are in the `u8` range. -/
theorem readIpv4_bounds (input : List Char) (oct : List Nat) (rest : List Char)
    (h : readIpv4 input = some (oct, rest)) :
    ∃ a b c d, oct = [a, b, c, d] ∧ a ≤ 255 ∧ b ≤ 255 ∧ c ≤ 255 ∧ d ≤ 255 := by
  unfold readIpv4 at h
  rw [readSeparator_zero] at h
  cases h1 : readIpv4Octet input with
  | none => rw [h1] at h; cases h
  | some t1 =>
    obtain ⟨a, r1⟩ := t1
    rw [h1] at h
    simp only [Option.bind_eq_bind, Option.some_bind] at h
    cases h2 : readSeparator '.' 1 readIpv4Octet r1 with
    | none => rw [h2] at h; cases h
    | some t2 =>
      obtain ⟨b, r2⟩ := t2
      rw [h2] at h
      simp only [Option.some_bind] at h
      cases h3 : readSeparator '.' 2 readIpv4Octet r2 with
      | none => rw [h3] at h; cases h
      | some t3 =>
        obtain ⟨c, r3⟩ := t3
        rw [h3] at h
        simp only [Option.some_bind] at h
        cases h4 : readSeparator '.' 3 readIpv4Octet r3 with
        | none => rw [h4] at h; cases h
        | some t4 =>
          obtain ⟨d, r4⟩ := t4
          rw [h4] at h
          simp only [Option.some_bind] at h
          cases h
          obtain ⟨i2, hi2⟩ := readSeparator_some h2
          obtain ⟨i3, hi3⟩ := readSeparator_some h3
          obtain ⟨i4, hi4⟩ := readSeparator_some h4
          exact ⟨a, b, c, d, rfl,
            readNumber_le 10 255 (some 3) false input a r1 h1,
            readNumber_le 10 255 (some 3) false i2 b r2 hi2,
            readNumber_le 10 255 (some 3) false i3 c r3 hi3,
            readNumber_le 10 255 (some 3) false i4 d _ hi4⟩

/-- A parsed `V4Prefix` has four in-range octets and a `u8` length. -/
theorem fromStrV4_shape (s : List Char) (v : V4Prefix)
    (h : V4Prefix.fromStr s = Except.ok v) :
    ∃ a b c d, V4Prefix.ip v = [a, b, c, d] ∧ a ≤ 255 ∧ b ≤ 255 ∧ c ≤ 255 ∧ d ≤ 255 ∧
      V4Prefix.plen v ≤ 255 := by
  unfold V4Prefix.fromStr at h
  cases hg0 : (splitOnChar '/' s).get? 0 with
  | none => rw [hg0] at h; cases h
  | some addr =>
    simp only [hg0] at h
    cases hpa : parseIpv4Addr addr with
    | none => simp only [hpa] at h; cases h
    | some oct =>
      simp only [hpa] at h
      cases hg1 : (splitOnChar '/' s).get? 1 with
      | none => simp only [hg1] at h; cases h
      | some lenStr =>
        simp only [hg1] at h
        cases hpu : parseU8 lenStr with
        | none => simp only [hpu] at h; cases h
        | some n =>
          simp only [hpu] at h
          cases h
          unfold parseIpv4Addr at hpa
          cases hr : readIpv4 addr with
          | none => rw [hr] at hpa; cases hpa
          | some t =>
            obtain ⟨o, rrest⟩ := t
            rw [hr] at hpa
            cases rrest with
            | cons x xs => cases hpa
            | nil =>
              cases hpa
              obtain ⟨a, b, c, d, hoct, ha, hb, hc, hd⟩ := readIpv4_bounds addr _ [] hr
              exact ⟨a, b, c, d, by rw [hoct], ha, hb, hc, hd,
                parseU8_le lenStr n hpu⟩

/-- A rendered `V4Prefix` parses back to itself. -/
theorem fromStrV4_roundtrip (v : V4Prefix) (a b c d : Nat)
    (hip : V4Prefix.ip v = [a, b, c, d]) (ha : a ≤ 255) (hb : b ≤ 255) (hc : c ≤ 255)
    (hd : d ≤ 255) (hn : V4Prefix.plen v ≤ 255) :
    V4Prefix.fromStr ( V4Prefix.render v) = Except.ok v := by
  unfold V4Prefix.render
  rw [hip]
  dsimp only
  have hns : '/' ∉ displayIpv4 a b c d :=
    displayIpv4_no_slash a b c d (by omega) (by omega) (by omega) (by omega)
  have hnd : '/' ∉ decStrU8 ( V4Prefix.plen v) :=
    fun hm => (decStrU8_chars _ (by omega) '/' hm).1 rfl
  unfold V4Prefix.fromStr
  rw [splitOnChar_append '/' _ _ hns]
  rw [splitOnChar_not_mem '/' _ hnd]
  simp only [List.get?_cons_zero, List.get?_cons_succ,
    parseIpv4Addr_render a b c d (by omega) (by omega) (by omega) (by omega),
    parseU8_dec ( V4Prefix.plen v) hn]
  cases v with
  | mk ip plen =>
    dsimp only at hip ⊢
    rw [hip]

/-! ### Bounds of the IPv6 reader -/

/-- The groups returned by `read_groups` fit the slots and the `u16`
range. -/
theorem readGroups_bounds :
    ∀ (rem i : Nat) (input : List Char) (gs : List Nat) (b : Bool) (rest : List Char),
      readGroups rem i input = (gs, b, rest) →
      gs.length ≤ rem ∧ ∀ g ∈ gs, g < 65536 := by
  intro rem
  induction rem with
  | zero =>
    intro i input gs b rest h
    rw [readGroups] at h
    cases h
    exact ⟨Nat.le_refl 0, fun g hg => absurd hg (List.not_mem_nil g)⟩
  | succ rem ih =>
    intro i input gs b rest h
    rw [readGroups] at h
    by_cases hrem : 1 ≤ rem
    · rw [if_pos hrem] at h
      cases hemb : readSeparator ':' i readIpv4 input with
      | some t =>
        obtain ⟨oct2, rest2⟩ := t
        rw [hemb] at h
        cases h
        obtain ⟨i2, hi2⟩ := readSeparator_some hemb
        obtain ⟨a, b2, c, d, hoct, ha, hb2, hc, hd⟩ := readIpv4_bounds i2 oct2 _ hi2
        subst hoct
        unfold v4ToGroups
        refine ⟨by simp; omega, fun g hg => ?_⟩
        simp only [List.mem_cons, List.not_mem_nil, or_false] at hg
        rcases hg with hg | hg <;> omega
      | none =>
        rw [hemb] at h
        cases hsep : readSeparator ':' i readHexGroup input with
        | some t =>
          obtain ⟨g, rest3⟩ := t
          rw [hsep] at h
          cases hrec : readGroups rem (i + 1) rest3 with
          | mk gs2 t2 =>
            obtain ⟨b2, rest4⟩ := t2
            dsimp only at h
            rw [hrec] at h
            dsimp only at h
            cases h
            obtain ⟨hlen, hvals⟩ := ih (i + 1) rest3 _ _ _ hrec
            obtain ⟨i2, hi2⟩ := readSeparator_some hsep
            have hg := readNumber_le 16 65535 (some 4) true i2 g rest3 hi2
            refine ⟨by rw [List.length_cons]; omega, fun x hx => ?_⟩
            rcases List.mem_cons.mp hx with hxg | hxm
            · subst hxg; omega
            · exact hvals x hxm
        | none =>
          rw [hsep] at h
          cases h
          exact ⟨by simp, fun g hg => absurd hg (List.not_mem_nil g)⟩
    · rw [if_neg hrem] at h
      cases hsep : readSeparator ':' i readHexGroup input with
      | some t =>
        obtain ⟨g, rest3⟩ := t
        rw [hsep] at h
        cases hrec : readGroups rem (i + 1) rest3 with
        | mk gs2 t2 =>
          obtain ⟨b2, rest4⟩ := t2
          dsimp only at h
          rw [hrec] at h
          dsimp only at h
          cases h
          obtain ⟨hlen, hvals⟩ := ih (i + 1) rest3 _ _ _ hrec
          obtain ⟨i2, hi2⟩ := readSeparator_some hsep
          have hg := readNumber_le 16 65535 (some 4) true i2 g rest3 hi2
          refine ⟨by rw [List.length_cons]; omega, fun x hx => ?_⟩
          rcases List.mem_cons.mp hx with hxg | hxm
          · subst hxg; omega
          · exact hvals x hxm
      | none =>
        rw [hsep] at h
        cases h
        exact ⟨by simp, fun g hg => absurd hg (List.not_mem_nil g)⟩

/-- A parsed IPv6 segment list has exactly 8 in-range groups. -/
theorem readIpv6_bounds (input : List Char) (segs : List Nat) (rest : List Char)
    (h : readIpv6 input = some (segs, rest)) :
    segs.length = 8 ∧ ∀ g ∈ segs, g < 65536 := by
  unfold readIpv6 at h
  cases hh : readGroups 8 0 input with
  | mk head t2 =>
    obtain ⟨headIpv4, rest1⟩ := t2
    rw [hh] at h
    dsimp only at h
    obtain ⟨hhlen, hhvals⟩ := readGroups_bounds 8 0 input head headIpv4 rest1 hh
    by_cases h8 : head.length = 8
    · rw [if_pos h8] at h
      cases h
      exact ⟨h8, hhvals⟩
    · rw [if_neg h8] at h
      by_cases hip : headIpv4 = true
      · rw [if_pos hip] at h
        cases h
      · rw [if_neg hip] at h
        split at h
        · next _ rest2 =>
          cases ht : readGroups (8 - (head.length + 1)) 0 rest2 with
          | mk tail t3 =>
            obtain ⟨b3, rest3⟩ := t3
            rw [ht] at h
            dsimp only at h
            cases h
            obtain ⟨htlen, htvals⟩ :=
              readGroups_bounds (8 - (head.length + 1)) 0 rest2 tail b3 _ ht
            constructor
            · rw [List.length_append, List.length_append, List.length_replicate]
              omega
            · intro g hg
              rcases List.mem_append.mp hg with hg1 | hg2
              · rcases List.mem_append.mp hg1 with hg3 | hg4
                · exact hhvals g hg3
                · rw [List.eq_of_mem_replicate hg4]
                  omega
              · exact htvals g hg2
        · next => cases h

/-- A parsed `V6Prefix` has eight in-range segments and a `u8` length. -/
theorem fromStrV6_shape (s : List Char) (v : V6Prefix)
    (h : V6Prefix.fromStr s = Except.ok v) :
    ( V6Prefix.ip v).length = 8 ∧ (∀ g ∈ V6Prefix.ip v, g < 65536) ∧
      V6Prefix.plen v ≤ 255 := by
  unfold V6Prefix.fromStr at h
  cases hg0 : (splitOnChar '/' s).get? 0 with
  | none => rw [hg0] at h; cases h
  | some addr =>
    simp only [hg0] at h
    cases hpa : parseIpv6Addr addr with
    | none => simp only [hpa] at h; cases h
    | some segs =>
      simp only [hpa] at h
      cases hg1 : (splitOnChar '/' s).get? 1 with
      | none => simp only [hg1] at h; cases h
      | some lenStr =>
        simp only [hg1] at h
        cases hpu : parseU8 lenStr with
        | none => simp only [hpu] at h; cases h
        | some n =>
          simp only [hpu] at h
          cases h
          unfold parseIpv6Addr at hpa
          cases hr : readIpv6 addr with
          | none => rw [hr] at hpa; cases hpa
          | some t =>
            obtain ⟨s2, rrest⟩ := t
            rw [hr] at hpa
            cases rrest with
            | cons x xs => cases hpa
            | nil =>
              cases hpa
              obtain ⟨hlen, hvals⟩ := readIpv6_bounds addr _ [] hr
              exact ⟨hlen, hvals, parseU8_le lenStr n hpu⟩

/-! ### Reading back a rendered IPv6 address -/

/-- `read_number` fails on empty input. -/
theorem readNumber_nil (radix maxVal : Nat) (maxDigits : Option Nat) (alz : Bool) :
    readNumber radix maxVal maxDigits alz [] = none := rfl

/-- `read_number` fails when the first character is not a digit. -/
theorem readNumber_nodigit (radix maxVal : Nat) (maxDigits : Option Nat) (alz : Bool)
    (c : Char) (cs : List Char) (h : toDigit radix c = none) :
    readNumber radix maxVal maxDigits alz (c :: cs) = none := by
  unfold readNumber readNumLoop
  rw [h]
  rfl

/-- `read_ipv4_addr` fails when the first character is not a decimal
digit. -/
theorem readIpv4_nodigit (c : Char) (cs : List Char) (h : toDigit 10 c = none) :
    readIpv4 (c :: cs) = none := by
  unfold readIpv4
  rw [readSeparator_zero]
  rw [show readIpv4Octet (c :: cs) = none from readNumber_nodigit 10 255 (some 3) false c cs h]
  rfl

/-- The hexadecimal group reader fails on empty input. -/
theorem readHexGroup_nil : readHexGroup [] = none :=
  readNumber_nil 16 65535 (some 4) true

/-- A leading colon stops the hexadecimal group reader. -/
theorem readHexGroup_colon (cs : List Char) : readHexGroup (':' :: cs) = none :=
  readNumber_nodigit 16 65535 (some 4) true ':' cs delim_not_digit.2.2.2.2.1

/-- The embedded-IPv4 attempt of `read_groups` fails whenever no dot occurs
in the input. -/
theorem readSepIpv4_noDot (i : Nat) (input : List Char) (h : '.' ∉ input) :
    readSeparator ':' i readIpv4 input = none := by
  by_cases hi : i = 0
  · subst hi
    rw [readSeparator_zero]
    exact readIpv4_noDot input h
  · cases input with
    | nil => exact readSeparator_pos_nil ':' i hi readIpv4
    | cons c cs =>
      rw [readSeparator_pos_cons ':' i hi]
      by_cases hc : c = ':'
      · rw [if_pos hc]
        exact readIpv4_noDot cs fun hm => h (List.mem_cons_of_mem c hm)
      · rw [if_neg hc]

/-- The dot never occurs in the tail of a `fmt_subslice` rendering. -/
theorem fmtSubsliceTail_no_dot :
    ∀ gs : List Nat, (∀ g ∈ gs, g < 65536) → '.' ∉ fmtSubsliceTail gs := by
  intro gs
  induction gs with
  | nil => intro _ hm; cases hm
  | cons g gs ih =>
    intro hb hm
    rw [fmtSubsliceTail] at hm
    rcases List.mem_cons.mp hm with he | hm2
    · cases he
    · rcases List.mem_append.mp hm2 with h1 | h2
      · exact (hexStrU16_chars g (hb g (List.mem_cons_self g gs)) _ h1).2.1 rfl
      · exact ih (fun x hx => hb x (List.mem_cons_of_mem g hx)) h2

/-- The dot never occurs in a `fmt_subslice` rendering. -/
theorem fmtSubslice_no_dot (gs : List Nat) (hb : ∀ g ∈ gs, g < 65536) :
    '.' ∉ fmtSubslice gs := by
  cases gs with
  | nil => intro hm; cases hm
  | cons g gs =>
    intro hm
    rw [fmtSubslice] at hm
    rcases List.mem_append.mp hm with h1 | h2
    · exact (hexStrU16_chars g (hb g (List.mem_cons_self g gs)) _ h1).2.1 rfl
    · exact fmtSubsliceTail_no_dot gs (fun x hx => hb x (List.mem_cons_of_mem g hx)) h2

/-- The dot never occurs in a rendered group sequence. -/
theorem groupsRender_no_dot (i : Nat) (gs : List Nat) (hb : ∀ g ∈ gs, g < 65536) :
    '.' ∉ groupsRender i gs := by
  cases i with
  | zero => exact fmtSubslice_no_dot gs hb
  | succ k => exact fmtSubsliceTail_no_dot gs hb

/-- `read_groups` reads back a rendered group sequence exactly, stopping at
the end of input or at a `::`. -/
theorem readGroups_render :
    ∀ (gs : List Nat) (rem i : Nat) (rest : List Char),
      (∀ g ∈ gs, g < 65536) → gs.length ≤ rem → '.' ∉ rest →
      (rest = [] ∨ ∃ r, rest = ':' :: ':' :: r) →
      readGroups rem i (groupsRender i gs ++ rest) = (gs, false, rest) := by
  intro gs
  induction gs with
  | nil =>
    intro rem i rest hb hlen hnd hshape
    have hgr : groupsRender i [] = [] := by cases i <;> rfl
    rw [hgr, List.nil_append]
    cases rem with
    | zero => rfl
    | succ rem =>
      rw [readGroups]
      have hemb : (if 1 ≤ rem then readSeparator ':' i readIpv4 rest else none) = none := by
        by_cases hrem : 1 ≤ rem
        · rw [if_pos hrem]
          exact readSepIpv4_noDot i rest hnd
        · rw [if_neg hrem]
      rw [hemb]
      have hsep : readSeparator ':' i readHexGroup rest = none := by
        rcases hshape with hE | ⟨r, hr⟩
        · subst hE
          by_cases hi : i = 0
          · subst hi
            rw [readSeparator_zero]
            exact readHexGroup_nil
          · exact readSeparator_pos_nil ':' i hi readHexGroup
        · subst hr
          by_cases hi : i = 0
          · subst hi
            rw [readSeparator_zero]
            exact readHexGroup_colon _
          · rw [readSeparator_pos_cons ':' i hi, if_pos rfl]
            exact readHexGroup_colon _
      rw [hsep]
  | cons g gs ih =>
    intro rem i rest hb hlen hnd hshape
    rw [List.length_cons] at hlen
    cases rem with
    | zero => omega
    | succ rem =>
      have hg : g < 65536 := hb g (List.mem_cons_self g gs)
      have hbt : ∀ x ∈ gs, x < 65536 := fun x hx => hb x (List.mem_cons_of_mem g hx)
      have hndall : '.' ∉ (groupsRender i (g :: gs) ++ rest) := by
        intro hm
        rcases List.mem_append.mp hm with h1 | h2
        · exact groupsRender_no_dot i (g :: gs) hb h1
        · exact hnd h2
      rw [readGroups]
      have hemb : (if 1 ≤ rem then
          readSeparator ':' i readIpv4 (groupsRender i (g :: gs) ++ rest) else none) = none := by
        by_cases hrem : 1 ≤ rem
        · rw [if_pos hrem]
          exact readSepIpv4_noDot i _ hndall
        · rw [if_neg hrem]
      rw [hemb]
      have hnd2 : notDigit 16 (fmtSubsliceTail gs ++ rest) := by
        cases gs with
        | cons g2 gs2 => exact delim_not_digit.2.2.2.2.1
        | nil =>
          rcases hshape with hE | ⟨r, hr⟩
          · subst hE
            exact trivial
          · subst hr
            exact delim_not_digit.2.2.2.2.1
      have hsep : readSeparator ':' i readHexGroup (groupsRender i (g :: gs) ++ rest) =
          some (g, fmtSubsliceTail gs ++ rest) := by
        cases i with
        | zero =>
          rw [readSeparator_zero]
          show readHexGroup (fmtSubslice (g :: gs) ++ rest) =
            some (g, fmtSubsliceTail gs ++ rest)
          rw [fmtSubslice, List.append_assoc]
          exact readHexGroup_render g hg _ hnd2
        | succ k =>
          show readSeparator ':' (k + 1) readHexGroup
            (':' :: ((hexStrU16 g ++ fmtSubsliceTail gs) ++ rest)) =
            some (g, fmtSubsliceTail gs ++ rest)
          rw [readSeparator_pos_cons ':' (k + 1) (by omega), if_pos rfl, List.append_assoc]
          exact readHexGroup_render g hg _ hnd2
      rw [hsep]
      dsimp only
      have hrec : readGroups rem (i + 1) (fmtSubsliceTail gs ++ rest) = (gs, false, rest) :=
        ih rem (i + 1) rest hbt (by omega) hnd hshape
      rw [hrec]

/-- `read_ipv6_addr` assembled from a short head, a `::`, and a tail. -/
theorem readIpv6_colonForm (input rest2 rest3 : List Char) (head tail : List Nat) (b3 : Bool)
    (h1 : readGroups 8 0 input = (head, false, ':' :: ':' :: rest2))
    (hh : ¬ head.length = 8)
    (h2 : readGroups (8 - (head.length + 1)) 0 rest2 = (tail, b3, rest3)) :
    readIpv6 input =
      some (head ++ List.replicate (8 - head.length - tail.length) 0 ++ tail, rest3) := by
  unfold readIpv6
  rw [h1]
  dsimp only
  rw [if_neg hh, if_neg Bool.false_ne_true]
  split
  · next r2 heq =>
    injection heq with h3 h4
    injection h4 with h5 h6
    subst h6
    rw [h2]
  · next hne =>
    exact (hne rest2 rfl).elim

/-- An eight-element list is literally eight elements. -/
theorem list_len8 {α : Type} (xs : List α) (hxs : xs.length = 8) :
    ∃ w0 w1 w2 w3 w4 w5 w6 w7, xs = [w0, w1, w2, w3, w4, w5, w6, w7] := by
  rcases xs with _ | ⟨w0, _ | ⟨w1, _ | ⟨w2, _ | ⟨w3, _ | ⟨w4, _ | ⟨w5, _ | ⟨w6, _ | ⟨w7, _ | ⟨w8, t⟩⟩⟩⟩⟩⟩⟩⟩⟩ <;>
      simp only [List.length_cons, List.length_nil] at hxs <;>
      first
        | omega
        | exact ⟨w0, w1, w2, w3, w4, w5, w6, w7, rfl⟩

/-- A list splits as prefix, zero run, suffix around any of its all-zero
spans. -/
theorem segs_decomp (segs : List Nat) (sp : Span) (hsz : SpanZero segs sp) :
    segs = segs.take sp.start ++
      (List.replicate sp.len 0 ++ segs.drop (sp.start + sp.len)) := by
  obtain ⟨hbnd, hz⟩ := hsz
  have hmid : List.take sp.len (List.drop sp.start segs) = List.replicate sp.len 0 := by
    rw [List.eq_replicate_iff]
    constructor
    · rw [List.length_take, List.length_drop]
      omega
    · intro b hbm
      obtain ⟨j, hj⟩ := List.mem_iff_get?.mp hbm
      by_cases hjl : j < sp.len
      · rw [List.get?_take hjl, List.get?_drop] at hj
        rw [hz j hjl] at hj
        exact (Option.some.inj hj).symm
      · have hnone : (List.take sp.len (List.drop sp.start segs)).get? j = none := by
          rw [List.get?_eq_none, List.length_take, List.length_drop]
          omega
        rw [hnone] at hj
        cases hj
  conv_lhs => rw [← List.take_append_drop sp.start segs,
    ← List.take_append_drop sp.len (List.drop sp.start segs)]
  rw [hmid, List.drop_drop]

/-- `Ipv6Addr::from_str` reads back the Display form of any 8-group
in-range segment list. -/
theorem parseIpv6Addr_render (segs : List Nat) (hlen : segs.length = 8)
    (hb : ∀ g ∈ segs, g < 65536) :
    parseIpv6Addr (displayIpv6 segs) = some segs := by
  unfold displayIpv6
  by_cases hm : isV4Mapped segs = true
  · rw [if_pos hm]
    obtain ⟨s0, s1, s2, s3, s4, s5, s6, s7, hse⟩ := list_len8 segs hlen
    subst hse
    have h6eq : [s0, s1, s2, s3, s4, s5] = [0, 0, 0, 0, 0, 65535] := of_decide_eq_true hm
    simp only [List.cons.injEq, and_true] at h6eq
    obtain ⟨e0, e1, e2, e3, e4, e5⟩ := h6eq
    subst e0
    subst e1
    subst e2
    subst e3
    subst e4
    subst e5
    have hs6 : s6 < 65536 := hb s6 (by simp)
    have hs7 : s7 < 65536 := hb s7 (by simp)
    have ha : s6 / 256 < 256 := by omega
    have hb2 : s6 % 256 < 256 := by omega
    have hc : s7 / 256 < 256 := by omega
    have hd2 : s7 % 256 < 256 := by omega
    show parseIpv6Addr (':' :: ':' :: 'f' :: 'f' :: 'f' :: 'f' :: ':' ::
        displayIpv4 (s6 / 256) (s6 % 256) (s7 / 256) (s7 % 256)) =
      some [0, 0, 0, 0, 0, 65535, s6, s7]
    have hv4 : readIpv4 (displayIpv4 (s6 / 256) (s6 % 256) (s7 / 256) (s7 % 256)) =
        some ([s6 / 256, s6 % 256, s7 / 256, s7 % 256], []) := by
      have h9 := readIpv4_render _ _ _ _ ha hb2 hc hd2 [] trivial
      rwa [List.append_nil] at h9
    have hg1 : readGroups 6 (0 + 1)
        (':' :: displayIpv4 (s6 / 256) (s6 % 256) (s7 / 256) (s7 % 256)) =
        ([s6 / 256 * 256 + s6 % 256, s7 / 256 * 256 + s7 % 256], true, []) := by
      rw [show (6 : Nat) = 5 + 1 from rfl, readGroups]
      rw [if_pos (by omega : (1 : Nat) ≤ 5)]
      rw [readSeparator_pos_cons ':' (0 + 1) (by omega), if_pos rfl, hv4]
      rfl
    have hff : hexStrU16 65535 = ['f', 'f', 'f', 'f'] := by decide
    have hhex : readHexGroup ('f' :: 'f' :: 'f' :: 'f' :: ':' ::
        displayIpv4 (s6 / 256) (s6 % 256) (s7 / 256) (s7 % 256)) =
        some (65535, ':' :: displayIpv4 (s6 / 256) (s6 % 256) (s7 / 256) (s7 % 256)) := by
      have h9 := readHexGroup_render 65535 (by omega)
        (':' :: displayIpv4 (s6 / 256) (s6 % 256) (s7 / 256) (s7 % 256))
        delim_not_digit.2.2.2.2.1
      rw [hff] at h9
      exact h9
    have hg2 : readGroups 7 0 ('f' :: 'f' :: 'f' :: 'f' :: ':' ::
        displayIpv4 (s6 / 256) (s6 % 256) (s7 / 256) (s7 % 256)) =
        ([65535, s6 / 256 * 256 + s6 % 256, s7 / 256 * 256 + s7 % 256], true, []) := by
      rw [show (7 : Nat) = 6 + 1 from rfl, readGroups]
      rw [if_pos (by omega : (1 : Nat) ≤ 6)]
      rw [readSeparator_zero, readIpv4_nodigit 'f' _ delim_not_digit.2.2.2.2.2.2]
      rw [readSeparator_zero, hhex]
      dsimp only
      rw [hg1]
    have hx : readGroups 8 0 (':' :: ':' :: 'f' :: 'f' :: 'f' :: 'f' :: ':' ::
        displayIpv4 (s6 / 256) (s6 % 256) (s7 / 256) (s7 % 256)) =
        ([], false, ':' :: ':' :: 'f' :: 'f' :: 'f' :: 'f' :: ':' ::
          displayIpv4 (s6 / 256) (s6 % 256) (s7 / 256) (s7 % 256)) := by
      rw [show (8 : Nat) = 7 + 1 from rfl, readGroups]
      rw [if_pos (by omega : (1 : Nat) ≤ 7)]
      rw [readSeparator_zero, readIpv4_nodigit ':' _ delim_not_digit.2.1]
      rw [readSeparator_zero, readHexGroup_colon]
    have h6r := readIpv6_colonForm _ _ _ _ _ _ hx (by decide) hg2
    have hab : s6 / 256 * 256 + s6 % 256 = s6 := by omega
    have hcd : s7 / 256 * 256 + s7 % 256 = s7 := by omega
    rw [hab, hcd] at h6r
    unfold parseIpv6Addr
    rw [h6r]
    rfl
  · rw [if_neg hm]
    by_cases hzl : 1 < (findZeroSpan segs).len
    · rw [if_pos hzl]
      rcases findZeroSpan_zero segs with h0 | hsz
      · omega
      · obtain ⟨hbnd, hzero⟩ := hsz
        rw [hlen] at hbnd
        have hhdb : ∀ g ∈ segs.take (findZeroSpan segs).start, g < 65536 :=
          fun g hg => hb g (List.mem_of_mem_take hg)
        have htlb : ∀ g ∈ segs.drop ((findZeroSpan segs).start + (findZeroSpan segs).len),
            g < 65536 := fun g hg => hb g (List.mem_of_mem_drop hg)
        have hhdlen : (segs.take (findZeroSpan segs).start).length =
            (findZeroSpan segs).start := by
          rw [List.length_take, hlen]
          omega
        have htllen : (segs.drop ((findZeroSpan segs).start + (findZeroSpan segs).len)).length =
            8 - ((findZeroSpan segs).start + (findZeroSpan segs).len) := by
          rw [List.length_drop, hlen]
        have hrestnd : '.' ∉ (':' :: ':' :: fmtSubslice
            (segs.drop ((findZeroSpan segs).start + (findZeroSpan segs).len))) := by
          intro hmem
          rcases List.mem_cons.mp hmem with he | hmem2
          · cases he
          · rcases List.mem_cons.mp hmem2 with he | hmem3
            · cases he
            · exact fmtSubslice_no_dot _ htlb hmem3
        have h1 : readGroups 8 0 (fmtSubslice (segs.take (findZeroSpan segs).start) ++
            ':' :: ':' :: fmtSubslice
              (segs.drop ((findZeroSpan segs).start + (findZeroSpan segs).len))) =
            (segs.take (findZeroSpan segs).start, false,
              ':' :: ':' :: fmtSubslice
                (segs.drop ((findZeroSpan segs).start + (findZeroSpan segs).len))) :=
          readGroups_render _ 8 0 _ hhdb (by rw [hhdlen]; omega) hrestnd (Or.inr ⟨_, rfl⟩)
        have h2 : readGroups (8 - ((segs.take (findZeroSpan segs).start).length + 1)) 0
            (fmtSubslice (segs.drop ((findZeroSpan segs).start + (findZeroSpan segs).len)) ++
              []) =
            (segs.drop ((findZeroSpan segs).start + (findZeroSpan segs).len), false, []) :=
          readGroups_render _ _ 0 [] htlb (by rw [htllen, hhdlen]; omega)
            (fun hmm => absurd hmm (List.not_mem_nil '.')) (Or.inl rfl)
        rw [List.append_nil] at h2
        have h6r := readIpv6_colonForm _ _ _ _ _ _ h1 (by rw [hhdlen]; omega) h2
        have hk : 8 - (segs.take (findZeroSpan segs).start).length -
            (segs.drop ((findZeroSpan segs).start + (findZeroSpan segs).len)).length =
            (findZeroSpan segs).len := by
          rw [hhdlen, htllen]
          omega
        rw [hk] at h6r
        unfold parseIpv6Addr
        rw [h6r]
        have hdec := segs_decomp segs (findZeroSpan segs) ⟨by omega, hzero⟩
        conv_rhs => rw [hdec]
        dsimp only
        rw [List.append_assoc]
    · rw [if_neg hzl]
      have h1 : readGroups 8 0 (fmtSubslice segs ++ []) = (segs, false, []) :=
        readGroups_render segs 8 0 [] hb (by omega) (fun hmm => absurd hmm (List.not_mem_nil '.'))
          (Or.inl rfl)
      rw [List.append_nil] at h1
      unfold parseIpv6Addr readIpv6
      rw [h1]
      dsimp only
      rw [if_pos hlen]

/-- A rendered `V6Prefix` parses back to itself. -/
theorem fromStrV6_roundtrip (v : V6Prefix)
    (hlen : ( V6Prefix.ip v).length = 8) (hbv : ∀ g ∈ V6Prefix.ip v, g < 65536)
    (hn : V6Prefix.plen v ≤ 255) :
    V6Prefix.fromStr ( V6Prefix.render v) = Except.ok v := by
  unfold V6Prefix.render
  have hns : '/' ∉ displayIpv6 ( V6Prefix.ip v) := displayIpv6_no_slash _ hbv
  have hnd : '/' ∉ decStrU8 ( V6Prefix.plen v) :=
    fun hm => (decStrU8_chars _ (by omega) '/' hm).1 rfl
  unfold V6Prefix.fromStr
  rw [splitOnChar_append '/' _ _ hns]
  rw [splitOnChar_not_mem '/' _ hnd]
  simp only [List.get?_cons_zero, List.get?_cons_succ,
    parseIpv6Addr_render ( V6Prefix.ip v) hlen hbv,
    parseU8_dec ( V6Prefix.plen v) hn]

/-! ### Claim theorems -/

/-- C1 counterexample: an entry with both optional fields present does not
make normalization fail — it succeeds with the v4 value, for both provider
shapes. -/
theorem claimC1_counterexample :
    AmazonIp.tryToPrefix exAmazonBoth = Except.ok ( IpPrefix.V4 exV4a) ∧
    GoogleIp.tryToPrefix exGoogleBoth = Except.ok ( IpPrefix.V4 exV4a) :=
  ⟨rfl, rfl⟩

/-- C1 (amended): normalization of a raw entry (either provider shape) fails
exactly when neither optional field is present; when the v4 field is present
— in particular when both fields are present — it succeeds with the v4
value. -/
theorem claimC1_amended :
    (∀ e : AmazonIp, AmazonIp.tryToPrefix e = Except.error BlockError.MissingPrefix ↔
        ( AmazonIp.ip_prefix e = none ∧ AmazonIp.ipv6_prefix e = none)) ∧
    (∀ e : GoogleIp, GoogleIp.tryToPrefix e = Except.error BlockError.MissingPrefix ↔
        ( GoogleIp.ipv4Prefix e = none ∧ GoogleIp.ipv6Prefix e = none)) ∧
    (∀ (e : AmazonIp) (p : V4Prefix), AmazonIp.ip_prefix e = some p →
        AmazonIp.tryToPrefix e = Except.ok ( IpPrefix.V4 p)) ∧
    (∀ (e : GoogleIp) (p : V4Prefix), GoogleIp.ipv4Prefix e = some p →
        GoogleIp.tryToPrefix e = Except.ok ( IpPrefix.V4 p)) := by
  refine ⟨fun e => ?_, fun e => ?_, fun e p hp => ?_, fun e p hp => ?_⟩
  · unfold AmazonIp.tryToPrefix
    cases h4 : AmazonIp.ip_prefix e with
    | some q => simp
    | none =>
      cases h6 : AmazonIp.ipv6_prefix e with
      | some q => simp
      | none => simp
  · unfold GoogleIp.tryToPrefix
    cases h4 : GoogleIp.ipv4Prefix e with
    | some q => simp
    | none =>
      cases h6 : GoogleIp.ipv6Prefix e with
      | some q => simp
      | none => simp
  · unfold AmazonIp.tryToPrefix
    rw [hp]
  · unfold GoogleIp.tryToPrefix
    rw [hp]

/-- C1 witness: the amended behavior evaluated on concrete entries holding
both fields. -/
theorem claimC1_witness :
    AmazonIp.tryToPrefix exAmazonBoth = Except.ok ( IpPrefix.V4 exV4a) ∧
    GoogleIp.tryToPrefix exGoogleBoth = Except.ok ( IpPrefix.V4 exV4a) :=
  ⟨claimC1_amended.2.2.1 exAmazonBoth exV4a rfl,
   claimC1_amended.2.2.2 exGoogleBoth exV4a rfl⟩

/-- C6: whenever `into_prefixes` succeeds it returns one unified value per
raw entry in the original order, each resolved per the spec's rule (v4 field
first, else v6 field); and it does succeed when every entry resolves. -/
theorem claimC6_order :
    (∀ (r : AWSRange) (out : List IpPrefix), AWSRange.intoPrefixes r = Except.ok out →
        List.Forall₂ (fun e p => resolvesTo ( AmazonIp.ip_prefix e) ( AmazonIp.ipv6_prefix e) p)
          r.prefixes out) ∧
    (∀ (r : GoogleRange) (out : List IpPrefix), GoogleRange.intoPrefixes r = Except.ok out →
        List.Forall₂ (fun e p => resolvesTo ( GoogleIp.ipv4Prefix e) ( GoogleIp.ipv6Prefix e) p)
          r.prefixes out) ∧
    (∀ r : AWSRange,
        (∀ e ∈ r.prefixes, ¬ ( AmazonIp.ip_prefix e = none ∧ AmazonIp.ipv6_prefix e = none)) →
        ∃ out, AWSRange.intoPrefixes r = Except.ok out) ∧
    (∀ r : GoogleRange,
        (∀ e ∈ r.prefixes, ¬ ( GoogleIp.ipv4Prefix e = none ∧ GoogleIp.ipv6Prefix e = none)) →
        ∃ out, GoogleRange.intoPrefixes r = Except.ok out) :=
  ⟨fun r out h => normalizeAmazon_forall2 r.prefixes out h,
   fun r out h => normalizeGoogle_forall2 r.prefixes out h,
   fun r h => normalizeAmazon_ok r.prefixes h,
   fun r h => normalizeGoogle_ok r.prefixes h⟩

/-- C6 witness: concrete one-entry documents, resolved in order. -/
theorem claimC6_witness :
    List.Forall₂ (fun e p => resolvesTo ( AmazonIp.ip_prefix e) ( AmazonIp.ipv6_prefix e) p)
      exAWSGood.prefixes [ IpPrefix.V4 exV4a] ∧
    List.Forall₂ (fun e p => resolvesTo ( GoogleIp.ipv4Prefix e) ( GoogleIp.ipv6Prefix e) p)
      exGoogleGood.prefixes [ IpPrefix.V6 exV6one] :=
  ⟨claimC6_order.1 exAWSGood [ IpPrefix.V4 exV4a] rfl,
   claimC6_order.2.1 exGoogleGood [ IpPrefix.V6 exV6one] rfl⟩

/-- C7: a document (either provider) containing an entry with neither
prefix field populated makes `into_prefixes` return the `MissingPrefix`
error: no sequence at all is produced, so prefixes resolved before the
failing entry are discarded and later entries contribute nothing. -/
theorem claimC7_failfast :
    (∀ r : AWSRange,
        (∃ e ∈ r.prefixes, AmazonIp.ip_prefix e = none ∧ AmazonIp.ipv6_prefix e = none) →
        AWSRange.intoPrefixes r = Except.error BlockError.MissingPrefix) ∧
    (∀ r : GoogleRange,
        (∃ e ∈ r.prefixes, GoogleIp.ipv4Prefix e = none ∧ GoogleIp.ipv6Prefix e = none) →
        GoogleRange.intoPrefixes r = Except.error BlockError.MissingPrefix) :=
  ⟨fun r h => normalizeAmazon_err r.prefixes h,
   fun r h => normalizeGoogle_err r.prefixes h⟩

/-- C7 witness: a document whose second entry is empty aborts with
`MissingPrefix` (discarding the resolved first entry), and one whose first
entry is empty returns nothing from the later resolvable entry. -/
theorem claimC7_witness :
    AWSRange.intoPrefixes exAWSBad = Except.error BlockError.MissingPrefix ∧
    GoogleRange.intoPrefixes exGoogleBad = Except.error BlockError.MissingPrefix :=
  ⟨claimC7_failfast.1 exAWSBad ⟨exAmazonNone, by decide, rfl, rfl⟩,
   claimC7_failfast.2 exGoogleBad ⟨exGoogleNone, by decide, rfl, rfl⟩⟩

/-- C8: `prefix_count` (the spec's `entry_count`) equals the length of the
raw entry sequence — it is a pure function of the document — and agrees
with the output length whenever normalization succeeds (and is well defined
regardless of whether normalization would succeed or fail). -/
theorem claimC8_count :
    (∀ r : AWSRange, AWSRange.prefix_count r = r.prefixes.length) ∧
    (∀ r : GoogleRange, GoogleRange.prefix_count r = r.prefixes.length) ∧
    (∀ (r : AWSRange) (out : List IpPrefix), AWSRange.intoPrefixes r = Except.ok out →
        out.length = AWSRange.prefix_count r) ∧
    (∀ (r : GoogleRange) (out : List IpPrefix), GoogleRange.intoPrefixes r = Except.ok out →
        out.length = GoogleRange.prefix_count r) :=
  ⟨fun _ => rfl, fun _ => rfl,
   fun r out h => (List.Forall₂.length_eq (normalizeAmazon_forall2 r.prefixes out h)).symm,
   fun r out h => (List.Forall₂.length_eq (normalizeGoogle_forall2 r.prefixes out h)).symm⟩

/-- C8 witness: the count of concrete documents, including one whose
normalization fails. -/
theorem claimC8_witness :
    AWSRange.prefix_count exAWSBad = 2 ∧
    List.length [ IpPrefix.V4 exV4a] = AWSRange.prefix_count exAWSGood :=
  ⟨claimC8_count.1 exAWSBad, claimC8_count.2.2.1 exAWSGood [ IpPrefix.V4 exV4a] rfl⟩

/-- C9: equality on the unified type is structural — within a family two
values are equal exactly when all address components and the length agree,
and a `V4` value never equals a `V6` value (the comparison is total, never
an error). -/
theorem claimC9_equality :
    (∀ x y : V4Prefix, x = y ↔ ( V4Prefix.ip x = V4Prefix.ip y ∧ V4Prefix.plen x = V4Prefix.plen y)) ∧
    (∀ x y : V6Prefix, x = y ↔ ( V6Prefix.ip x = V6Prefix.ip y ∧ V6Prefix.plen x = V6Prefix.plen y)) ∧
    (∀ a b : V4Prefix, IpPrefix.V4 a = IpPrefix.V4 b ↔ a = b) ∧
    (∀ a b : V6Prefix, IpPrefix.V6 a = IpPrefix.V6 b ↔ a = b) ∧
    (∀ (a : V4Prefix) (b : V6Prefix), IpPrefix.V4 a = IpPrefix.V6 b ↔ False) := by
  refine ⟨fun x y => ?_, fun x y => ?_, fun a b => ?_, fun a b => ?_, fun a b => ?_⟩
  · cases x; cases y; simp [ V4Prefix.mk.injEq]
  · cases x; cases y; simp [ V6Prefix.mk.injEq]
  · simp
  · simp
  · simp

/-- C2 counterexample: the all-zero address formats as `::/0` — the `::`
zero-compression form — not as the full expanded 8-segment form
`0:0:0:0:0:0:0:0/0`. -/
theorem claimC2_counterexample :
    V6Prefix.render exV6zero = [ ':', ':', '/', '0'] ∧
    fullFormRender exV6zero =
      [ '0', ':', '0', ':', '0', ':', '0', ':', '0', ':', '0', ':', '0', ':', '0', '/', '0'] ∧
    V6Prefix.render exV6zero ≠ fullFormRender exV6zero := by
  refine ⟨rfl, rfl, ?_⟩
  decide

/-- C2 (amended): formatting writes `/<length>` after the address, but the
address uses the canonical compressed rendering: full expanded 8-segment
form exactly when the segments contain no run of two consecutive zero
groups; whenever such a run exists (including the IPv4-mapped special form)
the output contains `::`. -/
theorem claimC2_amended :
    (∀ v : V6Prefix, hasZeroRun2 ( V6Prefix.ip v) = false →
        V6Prefix.render v = fullFormRender v) ∧
    (∀ v : V6Prefix, hasZeroRun2 ( V6Prefix.ip v) = true →
        hasDoubleColon ( V6Prefix.render v) = true) := by
  constructor
  · intro v h
    unfold V6Prefix.render fullFormRender
    rw [displayIpv6_full _ h]
  · intro v h
    unfold V6Prefix.render
    exact displayIpv6_colon _ _ h

/-- C2 witness: a no-run value renders in full form; the all-zero value
renders with `::`. -/
theorem claimC2_witness :
    V6Prefix.render exV6full = fullFormRender exV6full ∧
    hasDoubleColon ( V6Prefix.render exV6zero) = true :=
  ⟨claimC2_amended.1 exV6full rfl, claimC2_amended.2 exV6zero rfl⟩

/-- C4 counterexample: a three-part input succeeds (parts after the second
are ignored), and an invalid address with no slash fails with the
address error, not the missing-component error. -/
theorem claimC4_counterexample :
    V4Prefix.fromStr exThreeParts = Except.ok { ip := [1, 2, 3, 4], plen := 24 } ∧
    V4Prefix.fromStr exNoSlashBad = Except.error BlockError.AddrParse :=
  ⟨rfl, rfl⟩

/-- C4 (amended): a successful parse requires at least one `/` (both parts
present), but parts beyond the second are ignored, so more than two parts
can still succeed; with no `/` at all the length part is absent, and
parsing then fails with the missing-component error provided the address
part itself parses (an invalid address fails first with the address
error). -/
theorem claimC4_amended :
    (∀ (s : List Char) (v : V4Prefix), V4Prefix.fromStr s = Except.ok v → '/' ∈ s) ∧
    (∀ (s : List Char) (v : V6Prefix), V6Prefix.fromStr s = Except.ok v → '/' ∈ s) ∧
    (∀ (s : List Char) (oct : List Nat), '/' ∉ s → parseIpv4Addr s = some oct →
        V4Prefix.fromStr s = Except.error BlockError.NoneError) ∧
    (∀ (s : List Char) (segs : List Nat), '/' ∉ s → parseIpv6Addr s = some segs →
        V6Prefix.fromStr s = Except.error BlockError.NoneError) := by
  refine ⟨fun s v h => ?_, fun s v h => ?_, fun s oct hns hp => ?_, fun s segs hns hp => ?_⟩
  · by_contra hns
    unfold V4Prefix.fromStr at h
    rw [splitOnChar_not_mem '/' s hns] at h
    simp only [List.get?_cons_zero, List.get?_cons_succ, List.get?_nil] at h
    cases hpa : parseIpv4Addr s with
    | none => simp only [hpa] at h; cases h
    | some o => simp only [hpa] at h; cases h
  · by_contra hns
    unfold V6Prefix.fromStr at h
    rw [splitOnChar_not_mem '/' s hns] at h
    simp only [List.get?_cons_zero, List.get?_cons_succ, List.get?_nil] at h
    cases hpa : parseIpv6Addr s with
    | none => simp only [hpa] at h; cases h
    | some o => simp only [hpa] at h; cases h
  · unfold V4Prefix.fromStr
    rw [splitOnChar_not_mem '/' s hns]
    simp only [List.get?_cons_zero, List.get?_cons_succ, List.get?_nil, hp]
  · unfold V6Prefix.fromStr
    rw [splitOnChar_not_mem '/' s hns]
    simp only [List.get?_cons_zero, List.get?_cons_succ, List.get?_nil, hp]

/-- C4 witness: a successful two-part parse contains a slash, and the
spec's example `10.0.0.1` (no slash, valid address) fails with the
missing-component error. -/
theorem claimC4_witness :
    '/' ∈ exTwoParts ∧
    V4Prefix.fromStr exNoSlashAddr = Except.error BlockError.NoneError :=
  ⟨claimC4_amended.1 exTwoParts { ip := [1, 2, 3, 4], plen := 5 } rfl,
   claimC4_amended.2.2.1 exNoSlashAddr [10, 0, 0, 1] (by decide) rfl⟩

/-- C10: an input containing `/` never fails with the missing-component
error: both split parts exist, so failures come from the sub-parsers. An
empty length part after a valid address fails with the length error; an
empty (or any) address part starting at a leading `/` fails with the
address error. -/
theorem claimC10_slash :
    (∀ s : List Char, '/' ∈ s → V4Prefix.fromStr s ≠ Except.error BlockError.NoneError) ∧
    (∀ s : List Char, '/' ∈ s → V6Prefix.fromStr s ≠ Except.error BlockError.NoneError) ∧
    (∀ (a : List Char) (oct : List Nat), parseIpv4Addr a = some oct →
        V4Prefix.fromStr (a ++ [ '/']) = Except.error BlockError.ParseIntError) ∧
    (∀ (a : List Char) (segs : List Nat), parseIpv6Addr a = some segs →
        V6Prefix.fromStr (a ++ [ '/']) = Except.error BlockError.ParseIntError) ∧
    (∀ s : List Char, V4Prefix.fromStr ( '/' :: s) = Except.error BlockError.AddrParse) ∧
    (∀ s : List Char, V6Prefix.fromStr ( '/' :: s) = Except.error BlockError.AddrParse) := by
  refine ⟨fun s hs => ?_, fun s hs => ?_, fun a oct hp => ?_, fun a segs hp => ?_,
    fun s => ?_, fun s => ?_⟩
  · intro hcon
    have h2 := splitOnChar_two '/' s hs
    unfold V4Prefix.fromStr at hcon
    cases hsp : splitOnChar '/' s with
    | nil => rw [hsp] at h2; simp at h2
    | cons p ps =>
      cases ps with
      | nil => rw [hsp] at h2; simp at h2
      | cons q qs =>
        rw [hsp] at hcon
        simp only [List.get?_cons_zero, List.get?_cons_succ] at hcon
        cases hpa : parseIpv4Addr p with
        | none =>
          simp only [hpa] at hcon
          exact BlockError.noConfusion (Except.error.inj hcon)
        | some o =>
          simp only [hpa] at hcon
          cases hpu : parseU8 q with
          | none =>
            simp only [hpu] at hcon
            exact BlockError.noConfusion (Except.error.inj hcon)
          | some n => simp only [hpu] at hcon; cases hcon
  · intro hcon
    have h2 := splitOnChar_two '/' s hs
    unfold V6Prefix.fromStr at hcon
    cases hsp : splitOnChar '/' s with
    | nil => rw [hsp] at h2; simp at h2
    | cons p ps =>
      cases ps with
      | nil => rw [hsp] at h2; simp at h2
      | cons q qs =>
        rw [hsp] at hcon
        simp only [List.get?_cons_zero, List.get?_cons_succ] at hcon
        cases hpa : parseIpv6Addr p with
        | none =>
          simp only [hpa] at hcon
          exact BlockError.noConfusion (Except.error.inj hcon)
        | some o =>
          simp only [hpa] at hcon
          cases hpu : parseU8 q with
          | none =>
            simp only [hpu] at hcon
            exact BlockError.noConfusion (Except.error.inj hcon)
          | some n => simp only [hpu] at hcon; cases hcon
  · have hns : '/' ∉ a := parseIpv4Addr_no_slash a oct hp
    unfold V4Prefix.fromStr
    rw [show a ++ [ '/'] = a ++ '/' :: ([] : List Char) from rfl]
    rw [splitOnChar_append '/' a [] hns]
    simp only [List.get?_cons_zero, List.get?_cons_succ, hp, splitOnChar]
    rfl
  · have hns : '/' ∉ a := parseIpv6Addr_no_slash a segs hp
    unfold V6Prefix.fromStr
    rw [show a ++ [ '/'] = a ++ '/' :: ([] : List Char) from rfl]
    rw [splitOnChar_append '/' a [] hns]
    simp only [List.get?_cons_zero, List.get?_cons_succ, hp, splitOnChar]
    rfl
  · rfl
  · rfl

/-- C10 witness: the concrete one-sided inputs of the claim. -/
theorem claimC10_witness :
    V4Prefix.fromStr (exDotAddr ++ [ '/']) = Except.error BlockError.ParseIntError ∧
    V6Prefix.fromStr (exColonAddr ++ [ '/']) = Except.error BlockError.ParseIntError ∧
    V4Prefix.fromStr ( '/' :: ("24").toList) = Except.error BlockError.AddrParse ∧
    V6Prefix.fromStr ( '/' :: ("64").toList) = Except.error BlockError.AddrParse ∧
    V4Prefix.fromStr exLenAbc ≠ Except.error BlockError.NoneError :=
  ⟨claimC10_slash.2.2.1 exDotAddr [1, 2, 3, 4] rfl,
   claimC10_slash.2.2.2.1 exColonAddr [0, 0, 0, 0, 0, 0, 0, 1] rfl,
   claimC10_slash.2.2.2.2.1 (("24").toList),
   claimC10_slash.2.2.2.2.2 (("64").toList),
   claimC10_slash.1 exLenAbc (by decide)⟩

/-- C5: the parser never checks the length against the family maximum: for
every parsed IPv4 address string and every length value up to 255 (in
particular 99, above the IPv4 maximum of 32), `<address>/<length>`
parses successfully; a non-numeric or overflowing length part fails with
the length error. -/
theorem claimC5_length :
    (∀ (a : List Char) (oct : List Nat) (n : Nat), parseIpv4Addr a = some oct → n ≤ 255 →
        V4Prefix.fromStr (a ++ '/' :: decStrU8 n) = Except.ok { ip := oct, plen := n }) ∧
    V4Prefix.fromStr exLenAbc = Except.error BlockError.ParseIntError ∧
    V4Prefix.fromStr exLen256 = Except.error BlockError.ParseIntError := by
  refine ⟨fun a oct n hp hn => ?_, rfl, rfl⟩
  have hns : '/' ∉ a := parseIpv4Addr_no_slash a oct hp
  have hnd : '/' ∉ decStrU8 n := fun hm => (decStrU8_chars n (by omega) '/' hm).1 rfl
  unfold V4Prefix.fromStr
  rw [splitOnChar_append '/' a (decStrU8 n) hns]
  rw [splitOnChar_not_mem '/' (decStrU8 n) hnd]
  simp only [List.get?_cons_zero, List.get?_cons_succ, hp, parseU8_dec n hn]

/-- C5 witness: `10.0.0.1/99` succeeds with length 99. -/
theorem claimC5_witness :
    V4Prefix.fromStr (exNoSlashAddr ++ '/' :: decStrU8 99) =
      Except.ok { ip := [10, 0, 0, 1], plen := 99 } :=
  claimC5_length.1 exNoSlashAddr [10, 0, 0, 1] 99 rfl (by omega)

/-- C3: for both prefix families, any value produced by a successful parse
round-trips: parsing the string produced by formatting the parsed value
yields exactly the value again. -/
theorem claimC3_roundtrip :
    (∀ (s : List Char) (v : V4Prefix), V4Prefix.fromStr s = Except.ok v →
        V4Prefix.fromStr ( V4Prefix.render v) = Except.ok v) ∧
    (∀ (s : List Char) (v : V6Prefix), V6Prefix.fromStr s = Except.ok v →
        V6Prefix.fromStr ( V6Prefix.render v) = Except.ok v) := by
  constructor
  · intro s v h
    obtain ⟨a, b, c, d, hip, ha, hb, hc, hd, hn⟩ := fromStrV4_shape s v h
    exact fromStrV4_roundtrip v a b c d hip ha hb hc hd hn
  · intro s v h
    obtain ⟨hlen, hbv, hn⟩ := fromStrV6_shape s v h
    exact fromStrV6_roundtrip v hlen hbv hn

/-- C3 witness: the round-trip at the parsed values of `1.2.3.4/24` and
`::1/128`. -/
theorem claimC3_witness :
    V4Prefix.fromStr ( V4Prefix.render exV4a) = Except.ok exV4a ∧
    V6Prefix.fromStr ( V6Prefix.render exV6one) = Except.ok exV6one :=
  ⟨claimC3_roundtrip.1 (("1.2.3.4/24").toList) exV4a (by decide),
   claimC3_roundtrip.2 (("::1/128").toList) exV6one (by decide)⟩
